/-
Verification of the core Title Resolution & Acquisition Pipeline of
YIFY-Subtitle-Downloader (src/YIFY-Subtitle-Downloader.py).

The Python source is shallowly embedded: strings are `String`/`List Char`
(ASCII semantics for character classes), machine integers are `Nat`/`Int`,
Python floats used for similarity scores are modelled exactly over `ℚ`,
and the filesystem is an association list from path strings to byte lists.
Each definition mirrors the source function of the same name.
-/
import Mathlib

namespace YSD

/-! ### Basic character classes (ASCII semantics of Python `\s`, `\w`, `str.isdigit`) -/

/-- Python `\s` / `str.strip()` whitespace (ASCII part). -/
def isPySpace (c : Char) : Bool :=
  c = ' ' || c = '\t' || c = '\n' || c = '\r' || c = Char.ofNat 11 || c = Char.ofNat 12

/-- Python `\w` word character (ASCII part): alphanumeric or underscore. -/
def isWordChar (c : Char) : Bool := c.isAlphanum || c = '_'

/-! ### `collapse` (source lines 75-78)

`collapse` replaces `_` and `.` by spaces, squeezes every whitespace run
(`re.sub(r"\s+", " ", s)`) to a single space and strips the ends. -/

/-- One pass of `re.sub(r"\s+", " ", s)`: every maximal whitespace run becomes
a single `' '`.  The flag records whether the previous character was part of a
whitespace run. -/
def squeezeWsGo : Bool → List Char → List Char
  | _, [] => []
  | prevWs, c :: rest =>
    if isPySpace c then
      (if prevWs then [] else [' ']) ++ squeezeWsGo true rest
    else c :: squeezeWsGo false rest

/-- Python `str.strip()` (whitespace only). -/
def stripWs (l : List Char) : List Char :=
  ((l.dropWhile isPySpace).reverse.dropWhile isPySpace).reverse

def collapse (s : String) : String :=
  ⟨stripWs (squeezeWsGo false
    (s.data.map (fun c => if c = '_' then ' ' else if c = '.' then ' ' else c)))⟩

/-! ### `os.path.splitext` (posix semantics, used by the source for filenames) -/

/-- Index of the last character satisfying `p` (Python `str.rfind`). -/
def rfindIdx (p : Char → Bool) : List Char → Option ℕ
  | [] => none
  | c :: rest =>
    match rfindIdx p rest with
    | some i => some (i + 1)
    | none => if p c then some 0 else none

/-- `os.path.splitext`: split at the last dot of the basename, unless the
basename consists of leading dots only up to that dot. -/
def splitextL (l : List Char) : List Char × List Char :=
  let sepIdx : ℤ := (rfindIdx (fun c => c = '/') l).elim (-1) (fun n => (n : ℤ))
  let dotIdx : ℤ := (rfindIdx (fun c => c = '.') l).elim (-1) (fun n => (n : ℤ))
  if sepIdx < dotIdx then
    let fi := (sepIdx + 1).toNat
    let di := dotIdx.toNat
    if ((l.drop fi).take (di - fi)).any (fun c => !(c = '.')) then
      (l.take di, l.drop di)
    else (l, [])
  else (l, [])

def splitext (s : String) : String × String :=
  let r := splitextL s.data
  (⟨r.1⟩, ⟨r.2⟩)

/-! ### Year detection (source lines 91-103)

`re.search(r"\(((19|20)\d{2})\)\s*$", s)`: since `collapse` strips the string,
`\s*$` can only match the empty suffix, so the regex matches exactly when `s`
ends with `(19xx)` or `(20xx)`. -/

/-- Leading pair of a year literal: `19` or `20`. -/
def yearLead (c1 c2 : Char) : Bool := (c1 = '1' && c2 = '9') || (c1 = '2' && c2 = '0')

/-- If `l` ends with `(` year `)` where year is `(19|20)\d{2}`, return the
part before the opening parenthesis and the four year characters. -/
def yearEndSplit (l : List Char) : Option (List Char × List Char) :=
  match l.reverse with
  | c5 :: d4 :: d3 :: d2 :: d1 :: c0 :: restRev =>
    if c5 = ')' ∧ c0 = '(' ∧ yearLead d1 d2 = true ∧ d3.isDigit = true ∧ d4.isDigit = true then
      some (restRev.reverse, [d1, d2, d3, d4])
    else none
  | _ => none

/-- Does `\b(19|20)\d{2}\b` match at position `i` of `l`?  (`re.finditer`
matches of this pattern cannot overlap, so the set of match starts is exactly
the set of positions satisfying this predicate.) -/
def yearTokenAt (l : List Char) (i : ℕ) : Bool :=
  (match l.get? i, l.get? (i+1), l.get? (i+2), l.get? (i+3) with
   | some c1, some c2, some c3, some c4 => yearLead c1 c2 && c3.isDigit && c4.isDigit
   | _, _, _, _ => false)
  && (if i = 0 then true else
      match l.get? (i-1) with
      | some cp => !isWordChar cp
      | none => true)
  && (match l.get? (i+4) with
      | some cn => !isWordChar cn
      | none => true)

/-- Position of the last standalone year token (`matches[-1]`). -/
def lastYearTokenPos (l : List Char) : Option ℕ :=
  ((List.range l.length).filter (fun i => yearTokenAt l i)).getLast?

/-- The year/segment split of the collapsed base (source lines 91-103):
trailing parenthesized year first, otherwise the last standalone year token,
otherwise no year. -/
def splitYearSeg (s : String) : String × Option String :=
  match yearEndSplit s.data with
  | some (seg, y) => (⟨seg⟩, some ⟨y⟩)
  | none =>
    match lastYearTokenPos s.data with
    | some m => (⟨s.data.take m⟩, some ⟨(s.data.drop m).take 4⟩)
    | none => (s, none)

/-! ### Bracketed-span removal (source line 105)

`re.sub(r"[\[\(\{][^\]\)\}]*[\]\)\}]", " ", t)`: each opening bracket that is
followed (anywhere) by some closing bracket matches up to the first closing
bracket after it; the span is replaced by one space.  Fuel is the length of
the list (every step consumes at least one character). -/

def isOpenBr (c : Char) : Bool := c = '[' || c = '(' || c = '{'
def isCloseBr (c : Char) : Bool := c = ']' || c = ')' || c = '}'

/-- Drop characters up to and including the first closing bracket. -/
def dropToCloser : List Char → Option (List Char)
  | [] => none
  | c :: rest => if isCloseBr c then some rest else dropToCloser rest

def removeBracketsGo : ℕ → List Char → List Char
  | 0, l => l
  | _ + 1, [] => []
  | fuel + 1, c :: rest =>
    if isOpenBr c then
      match dropToCloser rest with
      | some after => ' ' :: removeBracketsGo fuel after
      | none => c :: removeBracketsGo fuel rest
    else c :: removeBracketsGo fuel rest

def removeBrackets (l : List Char) : List Char := removeBracketsGo l.length l

/-! ### Junk-token removal (source lines 65-72 and 106)

`re.sub(rf"(?i)\b(?:JUNK)\b", " ", t)` with the fixed alternation `JUNK`.
The alternation has no unbounded repetition, so it is embedded as a small
pattern type; `jmatch` returns the possible consumed lengths in backtracking
priority order (alternatives left to right, greedy option first), and the
first one after which `\b` holds is the regex match. -/

inductive JPat where
  | lit (s : List Char)
  | digit
  | anyOf (cs : List Char)
  | opt (p : JPat)
  | seq (p q : JPat)

/-- Case-insensitive literal match (pattern characters are stored lowercase). -/
def stripLitCI : List Char → List Char → Option (List Char)
  | [], l => some l
  | _ :: _, [] => none
  | p :: ps, c :: cs => if c.toLower = p then stripLitCI ps cs else none

/-- All ways a pattern can match a prefix of `l`, as (consumed, remainder)
pairs in backtracking priority order. -/
def jmatch : JPat → List Char → List (ℕ × List Char)
  | .lit s, l =>
    match stripLitCI s l with
    | some rest => [(s.length, rest)]
    | none => []
  | .digit, [] => []
  | .digit, c :: rest => if c.isDigit then [(1, rest)] else []
  | .anyOf _, [] => []
  | .anyOf cs, c :: rest => if cs.contains c.toLower then [(1, rest)] else []
  | .opt p, l => jmatch p l ++ [(0, l)]
  | .seq p q, l =>
    (jmatch p l).flatMap (fun nr => (jmatch q nr.2).map (fun mr => (nr.1 + mr.1, mr.2)))

def jlit (s : String) : JPat := .lit s.data

def jseq3 (a b c : JPat) : JPat := .seq a (.seq b c)

/-- The `JUNK` alternation of the source, branch by branch, in order. -/
def junkBranches : List JPat :=
  [ jlit "480p", jlit "720p", jlit "1080p", jlit "2160p", jlit "4k",
    jlit "10bit", jlit "8bit", jlit "x264", jlit "x265",
    jseq3 (jlit "h") (.opt (jlit ".")) (jlit "264"),
    jseq3 (jlit "h") (.opt (jlit ".")) (jlit "265"),
    jlit "hevc", jlit "av1",
    jlit "webrip", jlit "web-dl", jlit "webdl", jlit "bluray",
    jseq3 (jlit "b") (.anyOf ['d', 'r']) (jlit "rip"),
    jlit "hdrip", jlit "dvdrip", jlit "cam", jlit "telesync", jlit "ts", jlit "r5",
    .seq (jlit "aac") (.opt (.seq .digit (.opt (.seq (jlit ".") .digit)))),
    jlit "ac3", jlit "eac3",
    .seq (jlit "ddp") (.opt (.seq (jlit ".") .digit)),
    .seq (jlit "dts") (.opt (jlit "-hd")),
    jlit "truehd",
    jlit "atmos", jlit "dolby", jlit "vision", jlit "hdr",
    .seq (jlit "hdr10") (.opt (jlit "+")), jlit "sdr",
    jlit "yts", jlit "yify", jlit "rarbg", jlit "ettv", jlit "evo", jlit "fgt",
    jlit "psa", jlit "pahe", jlit "tigole", jlit "ntb", jlit "vtv", jlit "xvid",
    jlit "proper", jlit "repack", jlit "remux",
    jlit "nf", jlit "amzn", jlit "hulu", jlit "dsnp", jlit "web",
    jlit "blu-ray", jlit "webrip" ]

/-- Word-boundary test between two optional neighbouring characters. -/
def wordB (a b : Option Char) : Bool :=
  (match a with | some c => isWordChar c | none => false)
    != (match b with | some c => isWordChar c | none => false)

/-- First alternative (in priority order) matching at the head of `l` such
that `\b` holds after it; returns consumed length and remainder. -/
def junkTryAt (l : List Char) : Option (ℕ × List Char) :=
  (junkBranches.flatMap (fun p => jmatch p l)).find?
    (fun nr => wordB (l.get? (nr.1 - 1)) (l.get? nr.1))

/-- The scan of `re.sub`: at every position where `\b` holds before the
current character, try the alternation; on a match emit one space and resume
after it.  Fuel is the length of the list. -/
def junkScan : ℕ → Option Char → List Char → List Char
  | 0, _, l => l
  | _ + 1, _, [] => []
  | fuel + 1, prev, c :: rest =>
    if wordB prev (some c) then
      match junkTryAt (c :: rest) with
      | some (n, after) =>
        if n = 0 then c :: junkScan fuel (some c) rest
        else ' ' :: junkScan fuel ((c :: rest).get? (n - 1)) after
      | none => c :: junkScan fuel (some c) rest
    else c :: junkScan fuel (some c) rest

def junkRemove (l : List Char) : List Char := junkScan l.length none l

/-! ### `filename_to_title_and_year` (source lines 87-112) -/

/-- Trailing separator class of `re.sub(r"[\s\-\–:\(\[\{]+$", "", t)`. -/
def isTrailSep (c : Char) : Bool :=
  isPySpace c || c = '-' || c = '–' || c = ':' || c = '(' || c = '[' || c = '{'

def stripTrailSeps (l : List Char) : List Char :=
  (l.reverse.dropWhile isTrailSep).reverse

/-- The cleaning pipeline applied to the title segment (source lines 105-108). -/
def cleanTitleSegment (seg : String) : String :=
  ⟨stripWs (stripTrailSeps (collapse ⟨junkRemove (removeBrackets seg.data)⟩).data)⟩

/-- The fallback title (source lines 110-111). -/
def fallbackTitle (seg : String) : String :=
  ⟨stripWs (stripTrailSeps (collapse seg).data)⟩

/-- The title segment (`title_segment` in the source): the part of the
collapsed base before the detected year. -/
def extractedSeg (name : String) : String :=
  (splitYearSeg (collapse (splitext name).1)).1

def filename_to_title_and_year (name : String) : String × Option String :=
  (if cleanTitleSegment (extractedSeg name) = "" ∧ extractedSeg name ≠ ""
     then fallbackTitle (extractedSeg name)
     else cleanTitleSegment (extractedSeg name),
   (splitYearSeg (collapse (splitext name).1)).2)

/-! ### Membership lemmas for the cleaning pipeline -/

theorem mem_dropWhile_of_not {p : Char → Bool} {c : Char} {l : List Char}
    (h : c ∈ l) (hp : p c = false) : c ∈ l.dropWhile p := by
  induction l with
  | nil => cases h
  | cons a l ih =>
    rw [List.dropWhile_cons]
    rcases List.mem_cons.mp h with rfl | hmem
    · simp [hp]
    · by_cases ha : p a = true
      · simp only [ha, if_true]
        exact ih hmem
      · simp only [Bool.not_eq_true] at ha
        simp [ha, List.mem_cons, hmem]

theorem mem_stripWs {c : Char} {l : List Char} (h : c ∈ l) (hc : isPySpace c = false) :
    c ∈ stripWs l := by
  unfold stripWs
  rw [List.mem_reverse]
  exact mem_dropWhile_of_not (List.mem_reverse.mpr (mem_dropWhile_of_not h hc)) hc

theorem mem_of_mem_stripWs {c : Char} {l : List Char} (h : c ∈ stripWs l) : c ∈ l := by
  unfold stripWs at h
  rw [List.mem_reverse] at h
  have h2 := (List.dropWhile_sublist _).mem h
  rw [List.mem_reverse] at h2
  exact (List.dropWhile_sublist _).mem h2

theorem mem_stripTrailSeps {c : Char} {l : List Char} (h : c ∈ l)
    (hc : isTrailSep c = false) : c ∈ stripTrailSeps l := by
  unfold stripTrailSeps
  rw [List.mem_reverse]
  exact mem_dropWhile_of_not (List.mem_reverse.mpr h) hc

theorem mem_squeezeWsGo {c : Char} (hc : isPySpace c = false) :
    ∀ (b : Bool) {l : List Char}, c ∈ l → c ∈ squeezeWsGo b l := by
  intro b l
  induction l generalizing b with
  | nil => intro h; cases h
  | cons a l ih =>
    intro h
    unfold squeezeWsGo
    rcases List.mem_cons.mp h with rfl | hmem
    · simp [hc]
    · by_cases ha : isPySpace a = true
      · simp only [ha, if_true, List.mem_append]
        exact Or.inr (ih true hmem)
      · simp only [Bool.not_eq_true] at ha
        simp only [ha, Bool.false_eq_true, if_false, List.mem_cons]
        exact Or.inr (ih false hmem)

theorem mem_or_space_of_mem_squeezeWsGo {c : Char} :
    ∀ (b : Bool) {l : List Char}, c ∈ squeezeWsGo b l → c ∈ l ∨ c = ' ' := by
  intro b l
  induction l generalizing b with
  | nil => intro h; cases h
  | cons a l ih =>
    intro h
    unfold squeezeWsGo at h
    by_cases ha : isPySpace a = true
    · simp only [ha, if_true, List.mem_append] at h
      rcases h with h | h
      · rcases b with _ | _
        · rcases List.mem_singleton.mp (by simpa using h) with rfl
          exact Or.inr rfl
        · simp at h
      · rcases ih true h with h2 | h2
        · exact Or.inl (List.mem_cons_of_mem a h2)
        · exact Or.inr h2
    · simp only [Bool.not_eq_true] at ha
      simp only [ha, Bool.false_eq_true, if_false, List.mem_cons] at h
      rcases h with rfl | h
      · exact Or.inl (List.mem_cons_self _ _)
      · rcases ih false h with h2 | h2
        · exact Or.inl (List.mem_cons_of_mem a h2)
        · exact Or.inr h2

theorem mem_collapse {s : String} {c : Char} (h : c ∈ s.data) (h1 : c ≠ '_') (h2 : c ≠ '.')
    (hs : isPySpace c = false) : c ∈ (collapse s).data := by
  unfold collapse
  apply mem_stripWs _ hs
  apply mem_squeezeWsGo hs
  exact List.mem_map.mpr ⟨c, h, by simp [h1, h2]⟩

theorem not_sep_of_mem_collapse {s : String} {c : Char} (h : c ∈ (collapse s).data) :
    c ≠ '_' ∧ c ≠ '.' := by
  unfold collapse at h
  have h2 := mem_of_mem_stripWs h
  rcases mem_or_space_of_mem_squeezeWsGo _ h2 with hm | rfl
  · rcases List.mem_map.mp hm with ⟨a, _, rfl⟩
    by_cases ha1 : a = '_'
    · simp [ha1]
    · by_cases ha2 : a = '.'
      · simp [ha1, ha2]
      · simp [ha1, ha2]
  · exact ⟨by decide, by decide⟩

/-! ### Inversion and completeness for the year detection -/

theorem yearEndSplit_some {l seg y : List Char} (h : yearEndSplit l = some (seg, y)) :
    ∃ c1 c2 c3 c4, y = [c1, c2, c3, c4] ∧ yearLead c1 c2 = true ∧ c3.isDigit = true ∧
      c4.isDigit = true ∧ l = seg ++ '(' :: c1 :: c2 :: c3 :: c4 :: [')'] := by
  unfold yearEndSplit at h
  split at h
  · rename_i c5 d4 d3 d2 d1 c0 restRev heq
    split_ifs at h with hcond
    obtain ⟨rfl, rfl, h12, h3, h4⟩ := hcond
    obtain ⟨rfl, rfl⟩ := Prod.mk.injEq .. ▸ Option.some.injEq .. ▸ h
    refine ⟨d1, d2, d3, d4, rfl, h12, h3, h4, ?_⟩
    have : l = l.reverse.reverse := (List.reverse_reverse l).symm
    rw [this, heq]
    simp
  · simp at h

theorem yearEndSplit_append (seg : List Char) (c1 c2 c3 c4 : Char)
    (h12 : yearLead c1 c2 = true) (h3 : c3.isDigit = true) (h4 : c4.isDigit = true) :
    yearEndSplit (seg ++ '(' :: c1 :: c2 :: c3 :: c4 :: [')']) = some (seg, [c1, c2, c3, c4]) := by
  unfold yearEndSplit
  rw [List.reverse_append]
  simp only [List.reverse_cons, List.nil_append, List.append_assoc, List.cons_append,
    List.singleton_append]
  simp [h12, h3, h4]

theorem splitYearSeg_fst_subset (s : String) {c : Char}
    (h : c ∈ (splitYearSeg s).1.data) : c ∈ s.data := by
  unfold splitYearSeg at h
  split at h
  · rename_i seg y heq
    obtain ⟨c1, c2, c3, c4, _, _, _, _, hl⟩ := yearEndSplit_some heq
    rw [hl]
    exact List.mem_append.mpr (Or.inl h)
  · split at h
    · exact (List.take_sublist _ _).mem h
    · exact h

/-! ### Year-shape helpers -/

/-- Numeric value of a digit character. -/
def digitVal (c : Char) : ℕ := c.toNat - 48

/-- Decimal value of a digit string. -/
def decValL (l : List Char) : ℕ := l.foldl (fun a c => a * 10 + digitVal c) 0

/-- A four-character year of shape `(19|20)\d{2}`. -/
def isYearString (y : String) : Prop :=
  ∃ c1 c2 c3 c4, y.data = [c1, c2, c3, c4] ∧ yearLead c1 c2 = true ∧
    c3.isDigit = true ∧ c4.isDigit = true

theorem digitVal_le (c : Char) (h : c.isDigit = true) : digitVal c ≤ 9 := by
  unfold Char.isDigit at h
  simp only [Bool.and_eq_true, decide_eq_true_eq] at h
  have h2 : c.val.toNat ≤ 57 := h.2
  unfold digitVal Char.toNat
  omega

theorem decValL_year {c1 c2 c3 c4 : Char} (h12 : yearLead c1 c2 = true)
    (h3 : c3.isDigit = true) (h4 : c4.isDigit = true) :
    1900 ≤ decValL [c1, c2, c3, c4] ∧ decValL [c1, c2, c3, c4] ≤ 2099 := by
  have b3 := digitVal_le c3 h3
  have b4 := digitVal_le c4 h4
  have e1 : digitVal '1' = 1 := by decide
  have e9 : digitVal '9' = 9 := by decide
  have e2 : digitVal '2' = 2 := by decide
  have e0 : digitVal '0' = 0 := by decide
  unfold yearLead at h12
  simp only [Bool.or_eq_true, Bool.and_eq_true, decide_eq_true_eq] at h12
  rcases h12 with ⟨rfl, rfl⟩ | ⟨rfl, rfl⟩ <;>
    simp only [decValL, List.foldl, e1, e9, e2, e0] <;> omega

theorem drop_cons_of_get? {l : List Char} {m : ℕ} {c : Char} (h : l.get? m = some c) :
    l.drop m = c :: l.drop (m + 1) := by
  rw [List.get?_eq_getElem?] at h
  obtain ⟨hlt, hEq⟩ := List.getElem?_eq_some.mp h
  rw [List.drop_eq_getElem_cons hlt, hEq]

theorem take_four_of_get? {l : List Char} {m : ℕ} {c1 c2 c3 c4 : Char}
    (h1 : l.get? m = some c1) (h2 : l.get? (m + 1) = some c2)
    (h3 : l.get? (m + 2) = some c3) (h4 : l.get? (m + 3) = some c4) :
    (l.drop m).take 4 = [c1, c2, c3, c4] := by
  rw [drop_cons_of_get? h1, drop_cons_of_get? h2]
  have e3 : m + 1 + 1 = m + 2 := by omega
  rw [e3, drop_cons_of_get? h3]
  have e4 : m + 2 + 1 = m + 3 := by omega
  rw [e4, drop_cons_of_get? h4]
  rfl

/-- Inversion of a successful standalone-year-token test. -/
theorem yearTokenAt_some {l : List Char} {m : ℕ} (h : yearTokenAt l m = true) :
    ∃ c1 c2 c3 c4, l.get? m = some c1 ∧ l.get? (m + 1) = some c2 ∧
      l.get? (m + 2) = some c3 ∧ l.get? (m + 3) = some c4 ∧
      yearLead c1 c2 = true ∧ c3.isDigit = true ∧ c4.isDigit = true := by
  unfold yearTokenAt at h
  simp only [Bool.and_eq_true] at h
  obtain ⟨⟨hm, _⟩, _⟩ := h
  cases hg1 : l.get? m with
  | none => rw [hg1] at hm; cases hm
  | some c1 =>
    cases hg2 : l.get? (m + 1) with
    | none => rw [hg1, hg2] at hm; cases hm
    | some c2 =>
      cases hg3 : l.get? (m + 2) with
      | none => rw [hg1, hg2, hg3] at hm; cases hm
      | some c3 =>
        cases hg4 : l.get? (m + 3) with
        | none => rw [hg1, hg2, hg3, hg4] at hm; cases hm
        | some c4 =>
          rw [hg1, hg2, hg3, hg4] at hm
          simp only [Bool.and_eq_true] at hm
          exact ⟨c1, c2, c3, c4, rfl, rfl, rfl, rfl, hm.1.1, hm.1.2, hm.2⟩

/-! ### Claims about the Title Extractor -/

/-- **C10**: for every input filename, the year returned by
`filename_to_title_and_year` is either absent or a 4-character digit string of
shape `(19|20)\d{2}`, whose numeric value lies in 1900–2099. -/
theorem claim_C10_year_shape (name : String) :
    (filename_to_title_and_year name).2 = none ∨
    ∃ y, (filename_to_title_and_year name).2 = some y ∧ isYearString y ∧
      1900 ≤ decValL y.data ∧ decValL y.data ≤ 2099 := by
  unfold filename_to_title_and_year splitYearSeg
  cases hy : yearEndSplit (collapse (splitext name).1).data with
  | some r =>
    obtain ⟨seg, y⟩ := r
    obtain ⟨c1, c2, c3, c4, hy4, h12, h3, h4, _⟩ := yearEndSplit_some hy
    right
    subst hy4
    exact ⟨⟨[c1, c2, c3, c4]⟩, rfl, ⟨c1, c2, c3, c4, rfl, h12, h3, h4⟩,
      decValL_year h12 h3 h4⟩
  | none =>
    cases hm : lastYearTokenPos (collapse (splitext name).1).data with
    | none => left; rfl
    | some m =>
      right
      have hmem : m ∈ (List.range (collapse (splitext name).1).data.length).filter
          (fun i => yearTokenAt (collapse (splitext name).1).data i) := by
        unfold lastYearTokenPos at hm
        obtain ⟨hne, hEq⟩ := List.mem_getLast?_eq_getLast (x := m) (by rw [hm]; rfl)
        rw [hEq]
        exact List.getLast_mem hne
      have htok := (List.mem_filter.mp hmem).2
      obtain ⟨c1, c2, c3, c4, hg1, hg2, hg3, hg4, h12, h3, h4⟩ := yearTokenAt_some htok
      refine ⟨⟨((collapse (splitext name).1).data.drop m).take 4⟩, rfl, ?_, ?_⟩
      · exact ⟨c1, c2, c3, c4, by rw [take_four_of_get? hg1 hg2 hg3 hg4], h12, h3, h4⟩
      · show 1900 ≤ decValL (((collapse (splitext name).1).data.drop m).take 4) ∧ _
        rw [take_four_of_get? hg1 hg2 hg3 hg4]
        exact decValL_year h12 h3 h4

/-- Projection helpers for `filename_to_title_and_year` (definitional). -/
theorem filename_title_eq (name : String) :
    (filename_to_title_and_year name).1 =
      (if cleanTitleSegment (extractedSeg name) = "" ∧ extractedSeg name ≠ ""
        then fallbackTitle (extractedSeg name) else cleanTitleSegment (extractedSeg name)) := by
  simp only [filename_to_title_and_year]

theorem filename_year_eq (name : String) :
    (filename_to_title_and_year name).2 = (splitYearSeg (collapse (splitext name).1)).2 := by
  simp only [filename_to_title_and_year]

theorem extractedSeg_eq (name : String) :
    extractedSeg name = (splitYearSeg (collapse (splitext name).1)).1 := rfl

theorem fallbackTitle_data (seg : String) :
    (fallbackTitle seg).data = stripWs (stripTrailSeps (collapse seg).data) := by
  simp only [fallbackTitle]

/-- **C6**: when the collapsed base ends with a parenthesized year
`(19|20)\d{2}`, that year is returned as the year (even if the part before it
contains other year-like tokens), and everything before the opening
parenthesis is the title segment, to which the cleaning pipeline (with its
fallback) is applied. -/
theorem claim_C6_trailing_paren_year (name seg y : String) (c1 c2 c3 c4 : Char)
    (hy : y.data = [c1, c2, c3, c4]) (h12 : yearLead c1 c2 = true)
    (h3 : c3.isDigit = true) (h4 : c4.isDigit = true)
    (hs : (collapse (splitext name).1).data = seg.data ++ '(' :: c1 :: c2 :: c3 :: c4 :: [')']) :
    (filename_to_title_and_year name).2 = some y ∧
    extractedSeg name = seg ∧
    (filename_to_title_and_year name).1 =
      (if cleanTitleSegment seg = "" ∧ seg ≠ "" then fallbackTitle seg
       else cleanTitleSegment seg) := by
  have hsplit : splitYearSeg (collapse (splitext name).1) = (seg, some y) := by
    unfold splitYearSeg
    rw [hs, yearEndSplit_append seg.data c1 c2 c3 c4 h12 h3 h4]
    have hyy : y = (⟨[c1, c2, c3, c4]⟩ : String) := by
      cases y; simp at hy; rw [hy]
    rw [hyy]
  have hseg : extractedSeg name = seg := by rw [extractedSeg_eq, hsplit]
  refine ⟨?_, hseg, ?_⟩
  · rw [filename_year_eq, hsplit]
  · rw [filename_title_eq, hseg]

set_option maxHeartbeats 4000000 in
/-- **C6 witness**: `"2067 (2070).mkv"` — a purely numeric title followed by a
parenthesized year is not mistaken for the year. -/
theorem claim_C6_witness :
    (filename_to_title_and_year "2067 (2070).mkv").2 = some "2070" ∧
    extractedSeg "2067 (2070).mkv" = "2067 " ∧
    (filename_to_title_and_year "2067 (2070).mkv").1 =
      (if cleanTitleSegment "2067 " = "" ∧ ("2067 " : String) ≠ "" then fallbackTitle "2067 "
       else cleanTitleSegment "2067 ") :=
  claim_C6_trailing_paren_year "2067 (2070).mkv" "2067 " "2070" '2' '0' '7' '0'
    (by decide) (by decide) (by decide) (by decide) (by decide)

/-- **C7 (amended)**: the returned title is non-empty whenever the title
segment contains at least one character outside the separator class
`[\s\-\–:\(\[\{]` (the class stripped from the end of the fallback). -/
theorem claim_C7_title_nonempty (name : String)
    (h : ∃ c ∈ (extractedSeg name).data, isTrailSep c = false) :
    (filename_to_title_and_year name).1 ≠ "" := by
  obtain ⟨c, hc, hsep⟩ := h
  have hmain : ∀ t : String, c ∈ t.data → t ≠ "" := by
    intro t hmem he
    rw [he] at hmem
    cases hmem
  rw [filename_title_eq]
  by_cases ht : cleanTitleSegment (extractedSeg name) = ""
  · have hne : extractedSeg name ≠ "" := hmain _ hc
    rw [if_pos ⟨ht, hne⟩]
    have hpys : isPySpace c = false := by
      cases hpy : isPySpace c
      · rfl
      · exfalso
        have hts : isTrailSep c = true := by unfold isTrailSep; rw [hpy]; rfl
        rw [hts] at hsep
        cases hsep
    have hc0 : c ∈ (splitYearSeg (collapse (splitext name).1)).1.data := by
      rw [← extractedSeg_eq]; exact hc
    have hc1 : c ∈ (collapse (splitext name).1).data := splitYearSeg_fst_subset _ hc0
    obtain ⟨hu, hd⟩ := not_sep_of_mem_collapse hc1
    have hc2 : c ∈ (collapse (extractedSeg name)).data := mem_collapse hc hu hd hpys
    have hc3 : c ∈ stripTrailSeps (collapse (extractedSeg name)).data :=
      mem_stripTrailSeps hc2 hsep
    have hc4 : c ∈ (fallbackTitle (extractedSeg name)).data := by
      rw [fallbackTitle_data]
      exact mem_stripWs hc3 hpys
    exact hmain _ hc4
  · rw [if_neg (show ¬(cleanTitleSegment (extractedSeg name) = "" ∧ extractedSeg name ≠ "")
      from fun hand => ht hand.1)]
    exact ht

set_option maxHeartbeats 4000000 in
/-- **C7 counterexample**: for `"-.mkv"` the title segment `"-"` is non-empty,
yet the returned title is empty — the fallback is re-stripped of trailing
separators, so an all-separator segment yields an empty title. -/
theorem claim_C7_counterexample :
    extractedSeg "-.mkv" ≠ "" ∧ (filename_to_title_and_year "-.mkv").1 = "" := by
  constructor
  · decide
  · decide

set_option maxHeartbeats 4000000 in
/-- **C7 witness** for the amended theorem at a concrete input. -/
theorem claim_C7_witness :
    (∃ c ∈ (extractedSeg "Interstellar (2014).mkv").data, isTrailSep c = false) ∧
    (filename_to_title_and_year "Interstellar (2014).mkv").1 ≠ "" :=
  ⟨by decide, claim_C7_title_nonempty "Interstellar (2014).mkv" (by decide)⟩

/-! ### `normalize_title` (source lines 80-85) -/

def STOPWORDS : List String := ["the", "a", "an", "and", "or", "of", "in", "on", "at"]

/-- The punctuation class removed by `normalize_title`
(`[\[\]\(\)\{\}:;,'\"!@#$%^&*+=/?\\|~` and the backquote `]`). -/
def isNormPunct (c : Char) : Bool :=
  c = '[' || c = ']' || c = '(' || c = ')' || c = '{' || c = '}' || c = ':' || c = ';' ||
  c = ',' || c = Char.ofNat 39 || c = '"' || c = '!' || c = '@' || c = '#' || c = '$' ||
  c = '%' || c = '^' || c = '&' || c = '*' || c = '+' || c = '=' || c = '/' || c = '?' ||
  c = '\\' || c = '|' || c = '~' || c = Char.ofNat 96

/-- Python `str.split()`: split on whitespace runs, dropping empty pieces.
The accumulator holds the current word reversed. -/
def pySplitGo : List Char → List Char → List String
  | acc, [] => if acc = [] then [] else [⟨acc.reverse⟩]
  | acc, c :: rest =>
    if isPySpace c then
      (if acc = [] then [] else [⟨acc.reverse⟩]) ++ pySplitGo [] rest
    else pySplitGo (c :: acc) rest

def pySplitWs (s : String) : List String := pySplitGo [] s.data

def normalize_title (s : String) : String :=
  ⟨stripWs (String.intercalate " "
      ((pySplitGo [] (squeezeWsGo false
          (s.data.map (fun c => if isNormPunct c.toLower then ' ' else c.toLower)))).filter
        (fun w => !(STOPWORDS.contains w)))).data⟩

/-! ### Character-sequence similarity (spec §4.2)

Modelled from the spec: the "standard longest-matching-blocks ratio" of the
standard-library sequence matcher (`difflib.SequenceMatcher` with
`isjunk=None`; the source calls it only through `candidate_title_similarity`).
Repeatedly find the longest matching block — the dynamic scan keeps, for ties,
the block with the lowest index in `a`, then the lowest index in `b` — then
recurse on the parts before and after the block; `M` is the total matched
length and the ratio is `2*M/T` with `T` the combined length. -/

structure FlmBest where
  bi : ℕ
  bj : ℕ
  bsz : ℕ

/-- Indices of occurrences of `c` in `bs` (the `b2j` table), ascending. -/
def b2jList (bs : List Char) (c : Char) : List ℕ :=
  (List.range bs.length).filter (fun j => decide (bs.get? j = some c))

/-- Inner loop of `find_longest_match`: walk the occurrence list of `a[i]`
(ascending), skipping `j < blo` and stopping at `j ≥ bhi`; `j2` is the chain
table of the previous row, `acc` the one being built (`k > bestsize` keeps the
first achiever, hence lowest `i` then lowest `j` on ties). -/
def flmInner (j2 : ℕ → ℕ) (i blo bhi : ℕ) :
    List ℕ → (ℕ → ℕ) → FlmBest → ((ℕ → ℕ) × FlmBest)
  | [], acc, best => (acc, best)
  | j :: js, acc, best =>
    if j < blo then flmInner j2 i blo bhi js acc best
    else if bhi ≤ j then (acc, best)
    else
      let k := (if j = 0 then 0 else j2 (j - 1)) + 1
      let acc' := fun x => if x = j then k else acc x
      let best' := if best.bsz < k then FlmBest.mk (i + 1 - k) (j + 1 - k) k else best
      flmInner j2 i blo bhi js acc' best'

def flmRows (bj : Char → List ℕ) (as bs : List Char) (blo bhi : ℕ) :
    List ℕ → (ℕ → ℕ) → FlmBest → FlmBest
  | [], _, best => best
  | i :: is, j2, best =>
    let r := flmInner j2 i blo bhi (bj (as.getD i ' ')) (fun _ => 0) best
    flmRows bj as bs blo bhi is r.1 r.2

def find_longest_match (as bs : List Char) (alo ahi blo bhi : ℕ) : FlmBest :=
  flmRows (b2jList bs) as bs blo bhi (List.range' alo (ahi - alo)) (fun _ => 0)
    (FlmBest.mk alo blo 0)

/-- Total size of the greedy matching blocks on `a[alo:ahi]` × `b[blo:bhi]`;
the fuel exceeds the reachable recursion depth (each step shrinks the combined
range size by at least the block size on each side). -/
def matchSumGo (as bs : List Char) : ℕ → ℕ → ℕ → ℕ → ℕ → ℕ
  | 0, _, _, _, _ => 0
  | fuel + 1, alo, ahi, blo, bhi =>
    let m := find_longest_match as bs alo ahi blo bhi
    if m.bsz = 0 then 0
    else m.bsz + matchSumGo as bs fuel alo m.bi blo m.bj
           + matchSumGo as bs fuel (m.bi + m.bsz) ahi (m.bj + m.bsz) bhi

def matchTotal (as bs : List Char) : ℕ :=
  matchSumGo as bs (as.length + bs.length + 1) 0 as.length 0 bs.length

/-- `SequenceMatcher.ratio()` over `ℚ` (exact model of the float formula). -/
def pyRatio (as bs : List Char) : ℚ :=
  if as.length + bs.length = 0 then 1
  else 2 * (matchTotal as bs : ℚ) / ((as.length : ℚ) + (bs.length : ℚ))

/-! ### `candidate_title_similarity` (source lines 156-163) -/

/-- The word-set Jaccard term `(len(sa & sb) / max(1, len(sa | sb))) * 100.0`
on the word sets of two normalized titles (set cardinalities computed through
`dedup`). -/
def jaccardPct (a b : String) : ℚ :=
  if pySplitWs a ≠ [] ∨ pySplitWs b ≠ [] then
    ((((pySplitWs a).dedup.filter (fun w => decide (w ∈ pySplitWs b))).length : ℚ) /
      ((max 1 ((pySplitWs a ++ pySplitWs b).dedup.length) : ℕ) : ℚ)) * 100
  else 0

def candidate_title_similarity (c_title w_title : String) : ℚ :=
  if normalize_title c_title = "" ∨ normalize_title w_title = "" then 0
  else
    (6 / 10) * (pyRatio (normalize_title c_title).data (normalize_title w_title).data * 100)
      + (4 / 10) * jaccardPct (normalize_title c_title) (normalize_title w_title)

/-! ### `find_best_imdb` (source lines 165-205)

A `Candidate` is one entry of the `imdb_suggest` output (source lines 146-153);
`find_best_imdb` here takes the candidate list as a parameter, abstracting the
network call `imdb_suggest(title_clean)`. -/

structure Candidate where
  tt : String
  title : String
  year : Option Int
  kind : String

def strLower (s : String) : String := ⟨s.data.map Char.toLower⟩

/-- Python substring test `needle in hay`. -/
def strContains (hay needle : String) : Bool := decide (List.IsInfix needle.data hay.data)

def kind_penalty (kind : String) : Int :=
  if strContains (strLower kind) "videogame" || strContains (strLower kind) "video game"
    then -25
  else if strContains (strLower kind) "tv" || strContains (strLower kind) "series" ||
      strContains (strLower kind) "episode" || strContains (strLower kind) "mini"
    then -15
  else 0

/-- Python `str.isdigit` (ASCII digits, non-empty). -/
def isDigitStr (s : String) : Bool := !(s.data.isEmpty) && s.data.all Char.isDigit

/-- `int(s)` on a digit string. -/
def pyIntOfDigits (s : String) : Int := (decValL s.data : Int)

/-- `want_year = int(year_hint) if year_hint and year_hint.isdigit() else None`. -/
def wantYearOf (year_hint : Option String) : Option Int :=
  match year_hint with
  | some y => if isDigitStr y then some (pyIntOfDigits y) else none
  | none => none

/-- The year-proximity term `yp` of the scoring loop. -/
def yearProx (want : Option Int) (cyear : Option Int) : Int :=
  match want with
  | none => 0
  | some w =>
    match cyear with
    | none => -10
    | some y => if (y - w).natAbs = 0 then 30 else if (y - w).natAbs = 1 then 10 else -20

def simOf (title_clean : String) (c : Candidate) : ℚ :=
  candidate_title_similarity c.title title_clean

/-- `sim + yp + kp`, the first component of the `scored` triples. -/
def totalScore (title_clean : String) (want : Option Int) (c : Candidate) : ℚ :=
  simOf title_clean c + (yearProx want c.year : ℚ) + (kind_penalty c.kind : ℚ)

def scoredList (title_clean : String) (want : Option Int) (cs : List Candidate) :
    List (ℚ × ℚ × Candidate) :=
  cs.map (fun c => (totalScore title_clean want c, simOf title_clean c, c))

/-- Python `max(l, key=f)`: the first element attaining the maximal key. -/
def pymaxGo {α : Type} (key : α → ℚ) : α → List α → α
  | acc, [] => acc
  | acc, x :: xs => pymaxGo key (if key acc < key x then x else acc) xs

def pymax {α : Type} (key : α → ℚ) : List α → Option α
  | [] => none
  | x :: xs => some (pymaxGo key x xs)

/-- `_, _, c = max(bucket, key=lambda x: x[0]); return c` on a possibly empty
bucket. -/
def pickBest (bucket : List (ℚ × ℚ × Candidate)) : Option Candidate :=
  match pymax (fun t => t.1) bucket with
  | some t => some t.2.2
  | none => none

def exactFilter (w : Int) (scored : List (ℚ × ℚ × Candidate)) : List (ℚ × ℚ × Candidate) :=
  scored.filter (fun t => decide (t.2.2.year = some w) && decide ((60 : ℚ) ≤ t.2.1))

def nearFilter (w : Int) (scored : List (ℚ × ℚ × Candidate)) : List (ℚ × ℚ × Candidate) :=
  scored.filter (fun t =>
    (match t.2.2.year with
     | some y => decide ((y - w).natAbs = 1)
     | none => false) && decide ((80 : ℚ) ≤ t.2.1))

def goodFilter (scored : List (ℚ × ℚ × Candidate)) : List (ℚ × ℚ × Candidate) :=
  scored.filter (fun t => decide ((80 : ℚ) ≤ t.2.1))

/-- The candidate selected by `find_best_imdb` (the selection policy of source
lines 190-205, before building the returned triple). -/
def find_best_candidate (title_clean : String) (year_hint : Option String)
    (cs : List Candidate) : Option Candidate :=
  if cs.isEmpty then none
  else
    match wantYearOf year_hint with
    | some w =>
      match pickBest (exactFilter w (scoredList title_clean (some w) cs)) with
      | some c => some c
      | none => pickBest (nearFilter w (scoredList title_clean (some w) cs))
    | none => pickBest (goodFilter (scoredList title_clean none cs))

/-- `str(c["year"]) if c["year"] else None` (a zero year is falsy). -/
def optYearStr (y : Option Int) : Option String :=
  match y with
  | none => none
  | some v => if v = 0 then none else some (toString v)

def find_best_imdb (title_clean : String) (year_hint : Option String) (cs : List Candidate) :
    Option String × Option String × Option String :=
  match find_best_candidate title_clean year_hint cs with
  | none => (none, none, none)
  | some c => (some c.tt, some c.title, optYearStr c.year)

/-! ### Properties of `pymax` -/

theorem pymaxGo_spec {α : Type} (key : α → ℚ) :
    ∀ (l : List α) (x : α), (pymaxGo key x l = x ∨ pymaxGo key x l ∈ l) ∧
      key x ≤ key (pymaxGo key x l) ∧ ∀ y ∈ l, key y ≤ key (pymaxGo key x l) := by
  intro l
  induction l with
  | nil => intro x; exact ⟨Or.inl rfl, le_refl _, by intro y hy; cases hy⟩
  | cons a l ih =>
    intro x
    unfold pymaxGo
    obtain ⟨hmem, hxle, hall⟩ := ih (if key x < key a then a else x)
    have hx2 : key x ≤ key (if key x < key a then a else x) := by
      by_cases hlt : key x < key a
      · rw [if_pos hlt]; exact le_of_lt hlt
      · rw [if_neg hlt]
    have ha2 : key a ≤ key (if key x < key a then a else x) := by
      by_cases hlt : key x < key a
      · rw [if_pos hlt]
      · rw [if_neg hlt]; exact le_of_not_lt hlt
    refine ⟨?_, le_trans hx2 hxle, ?_⟩
    · rcases hmem with heq | hmem
      · rw [heq]
        by_cases hlt : key x < key a
        · rw [if_pos hlt]; exact Or.inr (List.mem_cons_self _ _)
        · rw [if_neg hlt]; exact Or.inl rfl
      · exact Or.inr (List.mem_cons_of_mem a hmem)
    · intro y hy
      rcases List.mem_cons.mp hy with rfl | hy2
      · exact le_trans ha2 hxle
      · exact hall y hy2

theorem pymax_spec {α : Type} (key : α → ℚ) (l : List α) (m : α) (h : pymax key l = some m) :
    m ∈ l ∧ ∀ y ∈ l, key y ≤ key m := by
  cases l with
  | nil => cases h
  | cons x xs =>
    unfold pymax at h
    have hm := Option.some_inj.mp h
    obtain ⟨hmem, hxle, hall⟩ := pymaxGo_spec key xs x
    subst hm
    constructor
    · rcases hmem with heq | hmem
      · rw [heq]; exact List.mem_cons_self _ _
      · exact List.mem_cons_of_mem x hmem
    · intro y hy
      rcases List.mem_cons.mp hy with rfl | hy2
      · exact hxle
      · exact hall y hy2

theorem pickBest_spec (bucket : List (ℚ × ℚ × Candidate)) (c : Candidate)
    (h : pickBest bucket = some c) :
    ∃ t ∈ bucket, t.2.2 = c ∧ ∀ y ∈ bucket, y.1 ≤ t.1 := by
  unfold pickBest at h
  cases hp : pymax (fun t => t.1) bucket with
  | none => rw [hp] at h; cases h
  | some t =>
    rw [hp] at h
    have ht := Option.some_inj.mp h
    obtain ⟨hmem, hall⟩ := pymax_spec _ _ _ hp
    exact ⟨t, hmem, ht, hall⟩

/-! ### Claim C2: a year hint makes the match strict -/

/-- **C2**: with a digit year hint, if no candidate has exactly the hint year
together with similarity ≥ 60, and no candidate has a year within exactly 1
of the hint together with similarity ≥ 80, then `find_best_imdb` returns the
all-absent triple — it never falls back to year-agnostic matching. -/
theorem claim_C2_strict_year_hint (cs : List Candidate) (title_clean : String) (y : String)
    (hd : isDigitStr y = true)
    (h60 : ∀ c ∈ cs, c.year = some (pyIntOfDigits y) →
        ¬((60 : ℚ) ≤ candidate_title_similarity c.title title_clean))
    (h80 : ∀ c ∈ cs, ∀ v, c.year = some v → (v - pyIntOfDigits y).natAbs = 1 →
        ¬((80 : ℚ) ≤ candidate_title_similarity c.title title_clean)) :
    find_best_imdb title_clean (some y) cs = (none, none, none) := by
  have hwant : wantYearOf (some y) = some (pyIntOfDigits y) := by
    simp only [wantYearOf]
    rw [if_pos hd]
  have hbc : find_best_candidate title_clean (some y) cs = none := by
    unfold find_best_candidate
    by_cases hcs : cs.isEmpty
    · rw [if_pos hcs]
    · rw [if_neg hcs]
      have hex : exactFilter (pyIntOfDigits y)
          (scoredList title_clean (some (pyIntOfDigits y)) cs) = [] := by
        apply List.filter_eq_nil_iff.mpr
        intro t ht
        obtain ⟨c, hc, rfl⟩ := List.mem_map.mp ht
        simp only [Bool.and_eq_true, decide_eq_true_eq, not_and]
        intro hy hsim
        exact h60 c hc hy hsim
      have hnear : nearFilter (pyIntOfDigits y)
          (scoredList title_clean (some (pyIntOfDigits y)) cs) = [] := by
        apply List.filter_eq_nil_iff.mpr
        intro t ht
        obtain ⟨c, hc, rfl⟩ := List.mem_map.mp ht
        cases hcy : c.year with
        | none => simp [hcy]
        | some v =>
          simp only [hcy, Bool.and_eq_true, decide_eq_true_eq, not_and]
          intro hdy hsim
          exact h80 c hc v hcy hdy hsim
      simp only [hwant, hex, hnear]
      rfl
  unfold find_best_imdb
  rw [hbc]

/-- **C2 witness**: a single candidate with no year is rejected under a year
hint (its similarity is irrelevant). -/
theorem claim_C2_witness :
    find_best_imdb "t" (some "2000") [Candidate.mk "tt1" "t" none "feature"] =
      (none, none, none) :=
  claim_C2_strict_year_hint _ _ _ (by decide)
    (by
      intro c hc hy
      rw [List.mem_singleton] at hc
      subst hc
      cases hy)
    (by
      intro c hc v hv
      rw [List.mem_singleton] at hc
      subst hc
      cases hv)

/-! ### Evaluating the similarity on concrete titles

`ℚ` arithmetic does not reduce in the kernel, so concrete similarity values
are obtained by computing the integer ingredients with `decide` and finishing
with `norm_num`. -/

theorem sim_eval_aux (ct wt : String) (m la lb inter wun : ℕ)
    (hne : ¬(normalize_title ct = "" ∨ normalize_title wt = ""))
    (hm : matchTotal (normalize_title ct).data (normalize_title wt).data = m)
    (hla : (normalize_title ct).data.length = la)
    (hlb : (normalize_title wt).data.length = lb)
    (hlab : ¬(la + lb = 0))
    (hsa : pySplitWs (normalize_title ct) ≠ [] ∨ pySplitWs (normalize_title wt) ≠ [])
    (hi : ((pySplitWs (normalize_title ct)).dedup.filter
            (fun w => decide (w ∈ pySplitWs (normalize_title wt)))).length = inter)
    (hu : ((pySplitWs (normalize_title ct) ++ pySplitWs (normalize_title wt)).dedup).length
            = wun) :
    candidate_title_similarity ct wt =
      (6 / 10) * (2 * (m : ℚ) / ((la : ℚ) + (lb : ℚ)) * 100)
        + (4 / 10) * (((inter : ℚ) / ((max 1 wun : ℕ) : ℚ)) * 100) := by
  unfold candidate_title_similarity
  rw [if_neg hne]
  unfold pyRatio
  rw [hla, hlb, if_neg hlab, hm]
  unfold jaccardPct
  rw [if_pos hsa, hi, hu]

/-! ### Claim C8: penalized candidates versus better non-penalized ones -/

/-- What `pickBest` of a filtered scored list guarantees: the winner is a list
member whose triple passes the filter, and its total score is maximal among
all candidates whose triples pass the filter. -/
theorem pickBest_filter_spec (title_clean : String) (want : Option Int) (cs : List Candidate)
    (p : ℚ × ℚ × Candidate → Bool) (c : Candidate)
    (h : pickBest ((scoredList title_clean want cs).filter p) = some c) :
    c ∈ cs ∧ p (totalScore title_clean want c, simOf title_clean c, c) = true ∧
      ∀ N ∈ cs, p (totalScore title_clean want N, simOf title_clean N, N) = true →
        totalScore title_clean want N ≤ totalScore title_clean want c := by
  obtain ⟨t, htmem, htc, hmax⟩ := pickBest_spec _ _ h
  obtain ⟨hts, htp⟩ := List.mem_filter.mp htmem
  obtain ⟨c0, hc0, hteq⟩ := List.mem_map.mp hts
  have hc0c : c0 = c := by rw [← htc, ← hteq]
  subst hc0c
  rw [← hteq] at htp
  refine ⟨hc0, htp, ?_⟩
  intro N hN hpN
  have hNmem : (totalScore title_clean want N, simOf title_clean N, N) ∈
      (scoredList title_clean want cs).filter p :=
    List.mem_filter.mpr ⟨List.mem_map.mpr ⟨N, hN, rfl⟩, hpN⟩
  have := hmax _ hNmem
  rw [← hteq] at this
  exact this

/-- **C8 (amended)**: `find_best_imdb`'s selection never returns a candidate
with a kind penalty (game or TV/episodic) when the list also contains a
non-penalized candidate with the same year, similarity ≥ 80 (which passes
every selection threshold) and a strictly greater total score. -/
theorem claim_C8_penalized_not_preferred (cs : List Candidate) (title_clean : String)
    (year_hint : Option String) (c : Candidate)
    (hres : find_best_candidate title_clean year_hint cs = some c)
    (hpen : kind_penalty c.kind < 0) :
    ¬ ∃ N ∈ cs, kind_penalty N.kind = 0 ∧ N.year = c.year ∧
        (80 : ℚ) ≤ candidate_title_similarity N.title title_clean ∧
        totalScore title_clean (wantYearOf year_hint) c <
          totalScore title_clean (wantYearOf year_hint) N := by
  rintro ⟨N, hN, hkp, hyear, hsim, hlt⟩
  have hsim60 : (60 : ℚ) ≤ simOf title_clean N := by
    unfold simOf
    calc (60 : ℚ) ≤ 80 := by norm_num
    _ ≤ _ := hsim
  have hsim80 : (80 : ℚ) ≤ simOf title_clean N := hsim
  unfold find_best_candidate at hres
  by_cases hcs : cs.isEmpty
  · rw [if_pos hcs] at hres; cases hres
  rw [if_neg hcs] at hres
  split at hres
  · rename_i w hw
    rw [hw] at hlt
    split at hres
    · rename_i c' hex
      have hc'c : c' = c := Option.some_inj.mp hres
      subst hc'c
      obtain ⟨_, hcp, hmax⟩ := pickBest_filter_spec title_clean (some w) cs _ c' hex
      simp only [Bool.and_eq_true, decide_eq_true_eq] at hcp
      have hcy : c'.year = some w := hcp.1
      have hle := hmax N hN (by
        simp only [Bool.and_eq_true, decide_eq_true_eq]
        exact ⟨by rw [hyear, hcy], hsim60⟩)
      exact absurd hlt (not_lt.mpr hle)
    · rename_i hex
      obtain ⟨_, hcp, hmax⟩ := pickBest_filter_spec title_clean (some w) cs _ c hres
      cases hcy : c.year with
      | none => rw [hcy] at hcp; cases hcp
      | some yv =>
        rw [hcy] at hcp
        simp only [Bool.and_eq_true, decide_eq_true_eq] at hcp
        have hle := hmax N hN (by
          rw [hyear, hcy]
          simp only [Bool.and_eq_true, decide_eq_true_eq]
          exact ⟨hcp.1, hsim80⟩)
        exact absurd hlt (not_lt.mpr hle)
  · rename_i hw
    rw [hw] at hlt
    obtain ⟨_, hcp, hmax⟩ := pickBest_filter_spec title_clean none cs _ c hres
    have hle := hmax N hN (by
      simp only [decide_eq_true_eq]
      exact hsim80)
    exact absurd hlt (not_lt.mpr hle)

/-- Reduction of `find_best_candidate` under a resolved year hint. -/
theorem find_best_candidate_some_hint (title_clean : String) (year_hint : Option String)
    (cs : List Candidate) (w : Int) (hcs : cs.isEmpty = false)
    (hw : wantYearOf year_hint = some w) :
    find_best_candidate title_clean year_hint cs =
      (match pickBest (exactFilter w (scoredList title_clean (some w) cs)) with
       | some c => some c
       | none => pickBest (nearFilter w (scoredList title_clean (some w) cs))) := by
  unfold find_best_candidate
  rw [if_neg (by rw [hcs]; exact Bool.false_ne_true), hw]

/-- Concrete similarity: `sim("b c d", "b c") = 215/3 ≈ 71.7`. -/
theorem sim_bcd_bc : candidate_title_similarity "b c d" "b c" = 215 / 3 := by
  rw [sim_eval_aux "b c d" "b c" 3 5 3 2 3 (by decide) (by decide) (by decide) (by decide)
    (by decide) (by decide) (by decide) (by decide)]
  norm_num

/-- Concrete similarity: `sim("b c d e", "b c") = 56`. -/
theorem sim_bcde_bc : candidate_title_similarity "b c d e" "b c" = 56 := by
  rw [sim_eval_aux "b c d e" "b c" 3 7 3 2 4 (by decide) (by decide) (by decide) (by decide)
    (by decide) (by decide) (by decide) (by decide)]
  norm_num

set_option maxHeartbeats 1000000 in
/-- **C8 counterexample**: with query `"b c"` and hint year 2000, the list
`[game "b c d" (2000), feature "b c d e" (2000)]` makes the selection return
the game candidate (similarity 215/3 ≥ 60, total 230/3), although the
non-penalized candidate has the same year and the better total score 86 — it
is excluded from the exact-year bucket by its similarity 56 < 60.  This
refutes the claim as stated. -/
theorem claim_C8_counterexample :
    find_best_candidate "b c" (some "2000")
        [Candidate.mk "ttP" "b c d" (some 2000) "videogame",
         Candidate.mk "ttN" "b c d e" (some 2000) "feature"] =
      some (Candidate.mk "ttP" "b c d" (some 2000) "videogame") ∧
    kind_penalty "videogame" < 0 ∧ kind_penalty "feature" = 0 ∧
    totalScore "b c" (wantYearOf (some "2000"))
        (Candidate.mk "ttP" "b c d" (some 2000) "videogame") ≤
      totalScore "b c" (wantYearOf (some "2000"))
        (Candidate.mk "ttN" "b c d e" (some 2000) "feature") := by
  have hsP : simOf "b c" (Candidate.mk "ttP" "b c d" (some 2000) "videogame") = 215 / 3 :=
    sim_bcd_bc
  have hsN : simOf "b c" (Candidate.mk "ttN" "b c d e" (some 2000) "feature") = 56 :=
    sim_bcde_bc
  have hwant : wantYearOf (some "2000") = some 2000 := by decide
  have hpP : (fun t : ℚ × ℚ × Candidate =>
        decide (t.2.2.year = some 2000) && decide ((60 : ℚ) ≤ t.2.1))
      (totalScore "b c" (some 2000) (Candidate.mk "ttP" "b c d" (some 2000) "videogame"),
       simOf "b c" (Candidate.mk "ttP" "b c d" (some 2000) "videogame"),
       Candidate.mk "ttP" "b c d" (some 2000) "videogame") = true := by
    show (decide ((some 2000 : Option Int) = some 2000) &&
      decide ((60 : ℚ) ≤ simOf "b c" (Candidate.mk "ttP" "b c d" (some 2000) "videogame")))
        = true
    rw [decide_eq_true (show (60 : ℚ) ≤
        simOf "b c" (Candidate.mk "ttP" "b c d" (some 2000) "videogame") by
      rw [hsP]; norm_num)]
    rfl
  have hpN : ¬((fun t : ℚ × ℚ × Candidate =>
        decide (t.2.2.year = some 2000) && decide ((60 : ℚ) ≤ t.2.1))
      (totalScore "b c" (some 2000) (Candidate.mk "ttN" "b c d e" (some 2000) "feature"),
       simOf "b c" (Candidate.mk "ttN" "b c d e" (some 2000) "feature"),
       Candidate.mk "ttN" "b c d e" (some 2000) "feature") = true) := by
    intro h
    replace h : (decide ((some 2000 : Option Int) = some 2000) &&
        decide ((60 : ℚ) ≤ simOf "b c" (Candidate.mk "ttN" "b c d e" (some 2000) "feature")))
        = true := h
    rw [Bool.and_eq_true] at h
    have h2 := of_decide_eq_true h.2
    rw [hsN] at h2
    norm_num at h2
  have hscored : scoredList "b c" (some 2000)
      [Candidate.mk "ttP" "b c d" (some 2000) "videogame",
       Candidate.mk "ttN" "b c d e" (some 2000) "feature"] =
      [(totalScore "b c" (some 2000) (Candidate.mk "ttP" "b c d" (some 2000) "videogame"),
        simOf "b c" (Candidate.mk "ttP" "b c d" (some 2000) "videogame"),
        Candidate.mk "ttP" "b c d" (some 2000) "videogame"),
       (totalScore "b c" (some 2000) (Candidate.mk "ttN" "b c d e" (some 2000) "feature"),
        simOf "b c" (Candidate.mk "ttN" "b c d e" (some 2000) "feature"),
        Candidate.mk "ttN" "b c d e" (some 2000) "feature")] := by
    unfold scoredList
    rw [List.map_cons, List.map_cons, List.map_nil]
  have hfilter : exactFilter 2000 (scoredList "b c" (some 2000)
      [Candidate.mk "ttP" "b c d" (some 2000) "videogame",
       Candidate.mk "ttN" "b c d e" (some 2000) "feature"]) =
      [(totalScore "b c" (some 2000) (Candidate.mk "ttP" "b c d" (some 2000) "videogame"),
        simOf "b c" (Candidate.mk "ttP" "b c d" (some 2000) "videogame"),
        Candidate.mk "ttP" "b c d" (some 2000) "videogame")] := by
    rw [hscored]
    unfold exactFilter
    rw [List.filter_cons, if_pos hpP, List.filter_cons, if_neg hpN, List.filter_nil]
  refine ⟨?_, by decide, by decide, ?_⟩
  · rw [find_best_candidate_some_hint "b c" (some "2000") _ 2000 (by decide) hwant, hfilter]
    rfl
  · rw [hwant]
    unfold totalScore
    rw [hsP, hsN]
    rw [show yearProx (some 2000) (some (2000 : Int)) = 30 from by decide]
    rw [show kind_penalty "videogame" = -25 from by decide]
    rw [show kind_penalty "feature" = 0 from by decide]
    norm_num

set_option maxHeartbeats 1000000 in
/-- **C8 witness**: the amended theorem applied at a concrete input on which
a penalized candidate is in fact returned. -/
theorem claim_C8_witness :
    find_best_candidate "b c" (some "2000")
        [Candidate.mk "ttP" "b c d" (some 2000) "videogame"] =
      some (Candidate.mk "ttP" "b c d" (some 2000) "videogame") ∧
    kind_penalty (Candidate.mk "ttP" "b c d" (some 2000) "videogame").kind < 0 ∧
    ¬ ∃ N ∈ [Candidate.mk "ttP" "b c d" (some 2000) "videogame"],
        kind_penalty N.kind = 0 ∧
        N.year = (Candidate.mk "ttP" "b c d" (some 2000) "videogame").year ∧
        (80 : ℚ) ≤ candidate_title_similarity N.title "b c" ∧
        totalScore "b c" (wantYearOf (some "2000"))
            (Candidate.mk "ttP" "b c d" (some 2000) "videogame") <
          totalScore "b c" (wantYearOf (some "2000")) N := by
  have hsP : simOf "b c" (Candidate.mk "ttP" "b c d" (some 2000) "videogame") = 215 / 3 :=
    sim_bcd_bc
  have hwant : wantYearOf (some "2000") = some 2000 := by decide
  have hpP : (fun t : ℚ × ℚ × Candidate =>
        decide (t.2.2.year = some 2000) && decide ((60 : ℚ) ≤ t.2.1))
      (totalScore "b c" (some 2000) (Candidate.mk "ttP" "b c d" (some 2000) "videogame"),
       simOf "b c" (Candidate.mk "ttP" "b c d" (some 2000) "videogame"),
       Candidate.mk "ttP" "b c d" (some 2000) "videogame") = true := by
    show (decide ((some 2000 : Option Int) = some 2000) &&
      decide ((60 : ℚ) ≤ simOf "b c" (Candidate.mk "ttP" "b c d" (some 2000) "videogame")))
        = true
    rw [decide_eq_true (show (60 : ℚ) ≤
        simOf "b c" (Candidate.mk "ttP" "b c d" (some 2000) "videogame") by
      rw [hsP]; norm_num)]
    rfl
  have hfilter : exactFilter 2000 (scoredList "b c" (some 2000)
      [Candidate.mk "ttP" "b c d" (some 2000) "videogame"]) =
      [(totalScore "b c" (some 2000) (Candidate.mk "ttP" "b c d" (some 2000) "videogame"),
        simOf "b c" (Candidate.mk "ttP" "b c d" (some 2000) "videogame"),
        Candidate.mk "ttP" "b c d" (some 2000) "videogame")] := by
    have hscored : scoredList "b c" (some 2000)
        [Candidate.mk "ttP" "b c d" (some 2000) "videogame"] =
        [(totalScore "b c" (some 2000) (Candidate.mk "ttP" "b c d" (some 2000) "videogame"),
          simOf "b c" (Candidate.mk "ttP" "b c d" (some 2000) "videogame"),
          Candidate.mk "ttP" "b c d" (some 2000) "videogame")] := by
      unfold scoredList
      rw [List.map_cons, List.map_nil]
    rw [hscored]
    unfold exactFilter
    rw [List.filter_cons, if_pos hpP, List.filter_nil]
  have hres : find_best_candidate "b c" (some "2000")
      [Candidate.mk "ttP" "b c d" (some 2000) "videogame"] =
      some (Candidate.mk "ttP" "b c d" (some 2000) "videogame") := by
    rw [find_best_candidate_some_hint "b c" (some "2000") _ 2000 (by decide) hwant, hfilter]
    rfl
  exact ⟨hres, by decide,
    claim_C8_penalized_not_preferred _ "b c" (some "2000") _ hres (by decide)⟩

/-! ### Claim C5: properties of the similarity scorer

For `a = b` the dynamic scan of `find_longest_match` always keeps the whole
diagonal block: every chain value is bounded by the row number and by the
`b`-index, while the diagonal chain value equals the row number, so the first
achiever of every new best size sits on the diagonal. -/

/-- Low phase of one row on the diagonal instance (`j < i`): the best block is
not changed and the chain-table bounds are maintained. -/
theorem flmInner_low (j2 : ℕ → ℕ) (i n : ℕ) (hin : i ≤ n) (hj3 : ∀ x, j2 x ≤ x + 1) :
    ∀ (js : List ℕ) (acc : ℕ → ℕ) (best : FlmBest),
      (∀ j ∈ js, j < i) → best.bsz = i →
      (∀ x, acc x ≤ i + 1) → (∀ x, acc x ≤ x + 1) →
      (flmInner j2 i 0 n js acc best).2 = best ∧
      (∀ x, (flmInner j2 i 0 n js acc best).1 x ≤ i + 1) ∧
      (∀ x, (flmInner j2 i 0 n js acc best).1 x ≤ x + 1) ∧
      (∀ x, i ≤ x → (flmInner j2 i 0 n js acc best).1 x = acc x) := by
  intro js
  induction js with
  | nil =>
    intro acc best _ _ hA1 hA2
    exact ⟨rfl, hA1, hA2, fun x _ => rfl⟩
  | cons j js ih =>
    intro acc best hjs hbsz hA1 hA2
    have hjlt : j < i := hjs j (List.mem_cons_self _ _)
    have hjn : j < n := lt_of_lt_of_le hjlt hin
    have hk1 : (if j = 0 then 0 else j2 (j - 1)) + 1 ≤ i := by
      by_cases hj0 : j = 0
      · rw [if_pos hj0]; omega
      · rw [if_neg hj0]
        have := hj3 (j - 1)
        omega
    have hkj : (if j = 0 then 0 else j2 (j - 1)) + 1 ≤ j + 1 := by
      by_cases hj0 : j = 0
      · rw [if_pos hj0]; omega
      · rw [if_neg hj0]
        have := hj3 (j - 1)
        omega
    unfold flmInner
    rw [if_neg (Nat.not_lt_zero j), if_neg (not_le.mpr hjn)]
    simp only []
    rw [if_neg (show ¬(best.bsz < (if j = 0 then 0 else j2 (j - 1)) + 1) by omega)]
    have ih2 := ih (fun x => if x = j then (if j = 0 then 0 else j2 (j - 1)) + 1 else acc x)
      best (fun x hx => hjs x (List.mem_cons_of_mem _ hx)) hbsz
      (by
        intro x
        simp only []
        by_cases hxj : x = j
        · rw [if_pos hxj]; omega
        · rw [if_neg hxj]; exact hA1 x)
      (by
        intro x
        simp only []
        by_cases hxj : x = j
        · rw [if_pos hxj]; omega
        · rw [if_neg hxj]; exact hA2 x)
    refine ⟨ih2.1, ih2.2.1, ih2.2.2.1, ?_⟩
    intro x hx
    rw [ih2.2.2.2 x hx]
    simp only []
    rw [if_neg (show ¬(x = j) by omega)]

/-- High phase of one row on the diagonal instance (`j > i`): the chain values
are at most `i + 1`, so the best block `⟨0, 0, i + 1⟩` is not displaced, and
entries at positions `≤ i` are untouched. -/
theorem flmInner_high (j2 : ℕ → ℕ) (i n : ℕ) (hj2 : ∀ x, j2 x ≤ i) (hj3 : ∀ x, j2 x ≤ x + 1) :
    ∀ (js : List ℕ) (acc : ℕ → ℕ) (best : FlmBest),
      (∀ j ∈ js, i < j ∧ j < n) → best.bsz = i + 1 →
      (∀ x, acc x ≤ i + 1) → (∀ x, acc x ≤ x + 1) →
      (flmInner j2 i 0 n js acc best).2 = best ∧
      (∀ x, (flmInner j2 i 0 n js acc best).1 x ≤ i + 1) ∧
      (∀ x, (flmInner j2 i 0 n js acc best).1 x ≤ x + 1) ∧
      (∀ x, x ≤ i → (flmInner j2 i 0 n js acc best).1 x = acc x) := by
  intro js
  induction js with
  | nil =>
    intro acc best _ _ hA1 hA2
    exact ⟨rfl, hA1, hA2, fun x _ => rfl⟩
  | cons j js ih =>
    intro acc best hjs hbsz hA1 hA2
    have hjgt : i < j := (hjs j (List.mem_cons_self _ _)).1
    have hjn : j < n := (hjs j (List.mem_cons_self _ _)).2
    have hk1 : (if j = 0 then 0 else j2 (j - 1)) + 1 ≤ i + 1 := by
      by_cases hj0 : j = 0
      · rw [if_pos hj0]; omega
      · rw [if_neg hj0]
        have := hj2 (j - 1)
        omega
    have hkj : (if j = 0 then 0 else j2 (j - 1)) + 1 ≤ j + 1 := by
      by_cases hj0 : j = 0
      · rw [if_pos hj0]; omega
      · rw [if_neg hj0]
        have := hj3 (j - 1)
        omega
    unfold flmInner
    rw [if_neg (Nat.not_lt_zero j), if_neg (not_le.mpr hjn)]
    simp only []
    rw [if_neg (show ¬(best.bsz < (if j = 0 then 0 else j2 (j - 1)) + 1) by omega)]
    have ih2 := ih (fun x => if x = j then (if j = 0 then 0 else j2 (j - 1)) + 1 else acc x)
      best (fun x hx => hjs x (List.mem_cons_of_mem _ hx)) hbsz
      (by
        intro x
        simp only []
        by_cases hxj : x = j
        · rw [if_pos hxj]; omega
        · rw [if_neg hxj]; exact hA1 x)
      (by
        intro x
        simp only []
        by_cases hxj : x = j
        · rw [if_pos hxj]; omega
        · rw [if_neg hxj]; exact hA2 x)
    refine ⟨ih2.1, ih2.2.1, ih2.2.2.1, ?_⟩
    intro x hx
    rw [ih2.2.2.2 x hx]
    simp only []
    rw [if_neg (show ¬(x = j) by omega)]

/-- Composing `flmInner` over an append when no break occurs in the first
part (every index of `js1` is below `bhi`). -/
theorem flmInner_append (j2 : ℕ → ℕ) (i bhi : ℕ) :
    ∀ (js1 js2 : List ℕ) (acc : ℕ → ℕ) (best : FlmBest), (∀ j ∈ js1, j < bhi) →
      flmInner j2 i 0 bhi (js1 ++ js2) acc best =
        flmInner j2 i 0 bhi js2 (flmInner j2 i 0 bhi js1 acc best).1
          (flmInner j2 i 0 bhi js1 acc best).2 := by
  intro js1
  induction js1 with
  | nil => intro js2 acc best _; rfl
  | cons j js1 ih =>
    intro js2 acc best hjs
    have hjn : j < bhi := hjs j (List.mem_cons_self _ _)
    rw [List.cons_append]
    show (if j < 0 then _ else if bhi ≤ j then _ else _) = _
    rw [if_neg (Nat.not_lt_zero j), if_neg (not_le.mpr hjn)]
    conv_rhs =>
      rw [show flmInner j2 i 0 bhi (j :: js1) acc best =
        (if j < 0 then flmInner j2 i 0 bhi js1 acc best
         else if bhi ≤ j then (acc, best)
         else flmInner j2 i 0 bhi js1
           (fun x => if x = j then (if j = 0 then 0 else j2 (j - 1)) + 1 else acc x)
           (if best.bsz < (if j = 0 then 0 else j2 (j - 1)) + 1 then
              FlmBest.mk (i + 1 - ((if j = 0 then 0 else j2 (j - 1)) + 1))
                (j + 1 - ((if j = 0 then 0 else j2 (j - 1)) + 1))
                ((if j = 0 then 0 else j2 (j - 1)) + 1)
            else best)) from rfl]
      rw [if_neg (Nat.not_lt_zero j), if_neg (not_le.mpr hjn)]
    exact ih js2 _ _ (fun x hx => hjs x (List.mem_cons_of_mem _ hx))

/-- One full row of the diagonal instance: from the row invariant at `i` to
the row invariant at `i + 1`.  `js` is the ascending occurrence list of the
row character, which contains `i` itself. -/
theorem flmInner_row (j2 : ℕ → ℕ) (i n : ℕ) (hin : i < n)
    (hj2 : ∀ x, j2 x ≤ i) (hj3 : ∀ x, j2 x ≤ x + 1) (hj4 : 1 ≤ i → j2 (i - 1) = i)
    (js : List ℕ) (hjs : ∀ j ∈ js, j < n) (hsort : js.Pairwise (· < ·)) (hmem : i ∈ js) :
    (flmInner j2 i 0 n js (fun _ => 0) (FlmBest.mk 0 0 i)).2 = FlmBest.mk 0 0 (i + 1) ∧
    (∀ x, (flmInner j2 i 0 n js (fun _ => 0) (FlmBest.mk 0 0 i)).1 x ≤ i + 1) ∧
    (∀ x, (flmInner j2 i 0 n js (fun _ => 0) (FlmBest.mk 0 0 i)).1 x ≤ x + 1) ∧
    (flmInner j2 i 0 n js (fun _ => 0) (FlmBest.mk 0 0 i)).1 i = i + 1 := by
  obtain ⟨js1, js2, rfl⟩ := List.append_of_mem hmem
  have hsplit := List.pairwise_append.mp hsort
  have hlow : ∀ j ∈ js1, j < i := fun j hj =>
    hsplit.2.2 j hj i (List.mem_cons_self _ _)
  have hhigh : ∀ j ∈ js2, i < j ∧ j < n := by
    intro j hj
    refine ⟨?_, hjs j (by simp [hj])⟩
    have hc := List.pairwise_cons.mp hsplit.2.1
    exact hc.1 j hj
  have hL := flmInner_low j2 i n (le_of_lt hin) hj3 js1 (fun _ => 0) (FlmBest.mk 0 0 i) hlow
    rfl (fun _ => Nat.zero_le _) (fun _ => Nat.zero_le _)
  rw [flmInner_append j2 i n js1 (i :: js2) _ _ (fun j hj => lt_trans (hlow j hj) hin)]
  set accL := (flmInner j2 i 0 n js1 (fun _ => 0) (FlmBest.mk 0 0 i)).1 with haccL
  rw [hL.1]
  -- the step at `j = i` itself
  have hki : (if i = 0 then 0 else j2 (i - 1)) + 1 = i + 1 := by
    by_cases hi0 : i = 0
    · rw [if_pos hi0, hi0]
    · rw [if_neg hi0, hj4 (by omega)]
  unfold flmInner
  rw [if_neg (Nat.not_lt_zero i), if_neg (not_le.mpr hin)]
  simp only []
  rw [hki]
  rw [if_pos (show (FlmBest.mk 0 0 i).bsz < i + 1 from Nat.lt_succ_self i)]
  have hstep : FlmBest.mk (i + 1 - (i + 1)) (i + 1 - (i + 1)) (i + 1) =
      FlmBest.mk 0 0 (i + 1) := by
    rw [Nat.sub_self]
  rw [hstep]
  have hH := flmInner_high j2 i n hj2 hj3 js2
    (fun x => if x = i then i + 1 else accL x) (FlmBest.mk 0 0 (i + 1)) hhigh rfl
    (by
      intro x
      simp only []
      by_cases hxi : x = i
      · rw [if_pos hxi]
      · rw [if_neg hxi]; exact hL.2.1 x)
    (by
      intro x
      simp only []
      by_cases hxi : x = i
      · rw [if_pos hxi, hxi]
      · rw [if_neg hxi]; exact hL.2.2.1 x)
  refine ⟨hH.1, hH.2.1, hH.2.2.1, ?_⟩
  rw [hH.2.2.2 i (le_refl i)]
  simp

theorem mem_b2jList {bs : List Char} {c : Char} {j : ℕ} :
    j ∈ b2jList bs c ↔ j < bs.length ∧ bs.get? j = some c := by
  unfold b2jList
  rw [List.mem_filter, List.mem_range, decide_eq_true_eq]

theorem b2jList_sorted (bs : List Char) (c : Char) :
    (b2jList bs c).Pairwise (· < ·) :=
  List.Pairwise.sublist (List.filter_sublist _) (List.pairwise_lt_range bs.length)

theorem string_eq_empty_of_data {s : String} (h : s.data = []) : s = "" := by
  cases s with
  | mk d =>
    simp only at h
    subst h
    rfl

theorem self_mem_b2jList {l : List Char} {i : ℕ} (h : i < l.length) :
    i ∈ b2jList l (l.getD i ' ') := by
  rw [mem_b2jList]
  refine ⟨h, ?_⟩
  rw [List.get?_eq_getElem?, List.getD_eq_getElem?_getD, List.getElem?_eq_getElem h]
  rfl

/-- The row recursion of the diagonal instance: starting from the invariant at
row `i`, processing rows `i, i+1, …, n-1` ends with the best block
`⟨0, 0, n⟩`. -/
theorem flmRows_diag (l : List Char) :
    ∀ (k i : ℕ) (j2 : ℕ → ℕ), i + k = l.length →
      (∀ x, j2 x ≤ i) → (∀ x, j2 x ≤ x + 1) → (1 ≤ i → j2 (i - 1) = i) →
      flmRows (b2jList l) l l 0 l.length (List.range' i k) j2 (FlmBest.mk 0 0 i) =
        FlmBest.mk 0 0 l.length := by
  intro k
  induction k with
  | zero =>
    intro i j2 hik _ _ _
    have hi : i = l.length := by omega
    subst hi
    rfl
  | succ k ih =>
    intro i j2 hik h2 h3 h4
    rw [List.range'_succ]
    unfold flmRows
    simp only []
    have hin : i < l.length := by omega
    have hjs : ∀ j ∈ b2jList l (l.getD i ' '), j < l.length := by
      intro j hj
      exact (mem_b2jList.mp hj).1
    have hrow := flmInner_row j2 i l.length hin h2 h3 h4 _ hjs
      (b2jList_sorted l (l.getD i ' ')) (self_mem_b2jList hin)
    rw [hrow.1]
    exact ih (i + 1) _ (by omega) hrow.2.1 hrow.2.2.1
      (by
        intro _
        rw [Nat.add_sub_cancel]
        exact hrow.2.2.2)

theorem find_longest_match_diag (l : List Char) :
    find_longest_match l l 0 l.length 0 l.length = FlmBest.mk 0 0 l.length := by
  unfold find_longest_match
  rw [Nat.sub_zero]
  exact flmRows_diag l l.length 0 (fun _ => 0) (by omega) (fun _ => Nat.le_refl 0)
    (fun _ => Nat.zero_le _) (fun h => absurd h (by omega))

theorem matchSumGo_empty (as bs : List Char) (f a b : ℕ) :
    matchSumGo as bs (f + 1) a a b b = 0 := by
  have hm : find_longest_match as bs a a b b = FlmBest.mk a b 0 := by
    unfold find_longest_match
    rw [Nat.sub_self]
    rfl
  unfold matchSumGo
  rw [hm]
  simp

theorem matchTotal_self (l : List Char) (hl : l ≠ []) : matchTotal l l = l.length := by
  obtain ⟨m, hm⟩ : ∃ m, l.length = m + 1 :=
    Nat.exists_eq_succ_of_ne_zero (fun h => hl (List.length_eq_zero.mp h))
  unfold matchTotal matchSumGo
  rw [find_longest_match_diag l]
  simp only []
  rw [if_neg (show ¬((FlmBest.mk 0 0 l.length).bsz = 0) by
    show ¬(l.length = 0); omega)]
  show l.length + matchSumGo l l (l.length + l.length) 0 0 0 0
      + matchSumGo l l (l.length + l.length) (0 + l.length) l.length (0 + l.length) l.length
      = l.length
  have hfuel : l.length + l.length = (m + m + 1) + 1 := by omega
  have hzero : (0 : ℕ) + l.length = l.length := by omega
  rw [hfuel, hzero, matchSumGo_empty, matchSumGo_empty]
  omega

theorem pyRatio_self (l : List Char) (hl : l ≠ []) : pyRatio l l = 1 := by
  have hn : l.length ≠ 0 := fun h => hl (List.length_eq_zero.mp h)
  unfold pyRatio
  rw [if_neg (by omega), matchTotal_self l hl]
  have hq : (l.length : ℚ) ≠ 0 := Nat.cast_ne_zero.mpr hn
  field_simp
  ring

/-! #### The word list of a normalized title is non-empty -/

theorem pySplitGo_ne_nil_of_acc : ∀ (l acc : List Char), acc ≠ [] → pySplitGo acc l ≠ [] := by
  intro l
  induction l with
  | nil =>
    intro acc hacc
    unfold pySplitGo
    rw [if_neg hacc]
    exact List.cons_ne_nil _ _
  | cons c rest ih =>
    intro acc hacc
    unfold pySplitGo
    by_cases hsp : isPySpace c = true
    · rw [if_pos hsp, if_neg hacc]
      exact List.cons_ne_nil _ _
    · rw [if_neg hsp]
      exact ih _ (List.cons_ne_nil _ _)

theorem pySplitGo_ne_nil : ∀ (l : List Char), (∃ c ∈ l, isPySpace c = false) →
    ∀ acc, pySplitGo acc l ≠ [] := by
  intro l
  induction l with
  | nil => rintro ⟨c, hc, _⟩; cases hc
  | cons a rest ih =>
    rintro ⟨c, hc, hcs⟩ acc
    unfold pySplitGo
    by_cases hsp : isPySpace a = true
    · rw [if_pos hsp]
      have hcrest : c ∈ rest := by
        rcases List.mem_cons.mp hc with rfl | h
        · rw [hsp] at hcs; cases hcs
        · exact h
      intro happ
      rcases List.append_eq_nil.mp happ with ⟨_, h2⟩
      exact ih ⟨c, hcrest, hcs⟩ [] h2
    · rw [if_neg hsp]
      exact pySplitGo_ne_nil_of_acc _ _ (List.cons_ne_nil _ _)

theorem dropWhile_first_false {p : Char → Bool} :
    ∀ {l : List Char} {c : Char} {cs : List Char}, l.dropWhile p = c :: cs → p c = false := by
  intro l
  induction l with
  | nil => intro c cs h; cases h
  | cons a l ih =>
    intro c cs h
    rw [List.dropWhile_cons] at h
    by_cases ha : p a = true
    · rw [if_pos ha] at h
      exact ih h
    · rw [if_neg ha] at h
      obtain ⟨rfl, _⟩ := List.cons.injEq .. ▸ h
      exact Bool.not_eq_true _ ▸ ha

theorem stripWs_has_nonspace {l : List Char} (h : stripWs l ≠ []) :
    ∃ c ∈ stripWs l, isPySpace c = false := by
  unfold stripWs at h ⊢
  cases hc : (l.dropWhile isPySpace).reverse.dropWhile isPySpace with
  | nil => rw [hc] at h; exact absurd rfl h
  | cons c cs =>
    have hpc : isPySpace c = false := dropWhile_first_false hc
    refine ⟨c, ?_, hpc⟩
    rw [List.mem_reverse]
    exact List.mem_cons_self _ _

/-- The data of `normalize_title` in explicit form. -/
theorem normalize_title_data (a : String) :
    (normalize_title a).data = stripWs (String.intercalate " "
      ((pySplitGo [] (squeezeWsGo false
          (a.data.map (fun c => if isNormPunct c.toLower then ' ' else c.toLower)))).filter
        (fun w => !(STOPWORDS.contains w)))).data := by
  simp only [normalize_title]

theorem pySplitWs_normalize_ne_nil {a : String} (h : normalize_title a ≠ "") :
    pySplitWs (normalize_title a) ≠ [] := by
  have hdata : (normalize_title a).data ≠ [] := by
    intro hnil
    exact h (string_eq_empty_of_data hnil)
  have hnonspace : ∃ c ∈ (normalize_title a).data, isPySpace c = false := by
    rw [normalize_title_data] at hdata ⊢
    exact stripWs_has_nonspace hdata
  unfold pySplitWs
  exact pySplitGo_ne_nil _ hnonspace []

theorem jaccardPct_self (a : String) (hw : pySplitWs a ≠ []) : jaccardPct a a = 100 := by
  unfold jaccardPct
  rw [if_pos (Or.inl hw)]
  have hfilter : (pySplitWs a).dedup.filter (fun w => decide (w ∈ pySplitWs a)) =
      (pySplitWs a).dedup := by
    apply List.filter_eq_self.mpr
    intro w hwm
    exact decide_eq_true (List.mem_dedup.mp hwm)
  rw [hfilter]
  have hunion : ((pySplitWs a ++ pySplitWs a).dedup).length = (pySplitWs a).dedup.length := by
    rw [← List.card_toFinset, ← List.card_toFinset, List.toFinset_append, Finset.union_self]
  rw [hunion]
  have hd : 1 ≤ (pySplitWs a).dedup.length := by
    have hne : (pySplitWs a).dedup ≠ [] := fun hnil => hw ((List.dedup_eq_nil _).mp hnil)
    exact List.length_pos.mpr hne
  rw [Nat.max_eq_right hd]
  have hq : ((pySplitWs a).dedup.length : ℚ) ≠ 0 := Nat.cast_ne_zero.mpr (by omega)
  field_simp

/-- **C5 (amended)**: the similarity scorer returns 100 on any title that is
non-empty after normalization compared with itself, and 0 when the first
title is empty; symmetry `score(a,b) = score(b,a)` does **not** hold in
general (see the counterexample). -/
theorem claim_C5_amended :
    (∀ a : String, normalize_title a ≠ "" → candidate_title_similarity a a = 100) ∧
    (∀ x : String, candidate_title_similarity "" x = 0) := by
  constructor
  · intro a h
    have hdata : (normalize_title a).data ≠ [] := by
      intro hnil
      exact h (string_eq_empty_of_data hnil)
    unfold candidate_title_similarity
    rw [if_neg (by
      intro hor
      rcases hor with h1 | h1 <;> exact h h1)]
    rw [pyRatio_self _ hdata, jaccardPct_self _ (pySplitWs_normalize_ne_nil h)]
    norm_num
  · intro x
    unfold candidate_title_similarity
    rw [if_pos (Or.inl (by decide))]

/-- **C5 counterexample**: the similarity is not symmetric — the greedy
matching-block total of the sequence matcher depends on the argument order
(`M("zpqrs","rszwpq") = 3` but `M("rszwpq","zpqrs") = 2`), so
`sim("zpqrs","rszwpq") = 360/11 ≠ 240/11 = sim("rszwpq","zpqrs")`. -/
theorem claim_C5_counterexample :
    candidate_title_similarity "zpqrs" "rszwpq" ≠
      candidate_title_similarity "rszwpq" "zpqrs" := by
  rw [sim_eval_aux "zpqrs" "rszwpq" 3 5 6 0 2 (by decide) (by decide) (by decide) (by decide)
    (by decide) (by decide) (by decide) (by decide)]
  rw [sim_eval_aux "rszwpq" "zpqrs" 2 6 5 0 2 (by decide) (by decide) (by decide) (by decide)
    (by decide) (by decide) (by decide) (by decide)]
  norm_num

/-- **C5 witness** for the amended theorem at concrete inputs. -/
theorem claim_C5_witness :
    normalize_title "b c" ≠ "" ∧ candidate_title_similarity "b c" "b c" = 100 ∧
    candidate_title_similarity "" "b c" = 0 :=
  ⟨by decide, claim_C5_amended.1 "b c" (by decide), claim_C5_amended.2 "b c"⟩

/-! ### `get_html` (source lines 115-131)

The network is abstracted as a function from the attempt number to the
outcome observed on that attempt: either a connection-level exception or a
response with a status code.  A response with a status in `BLOCK_CODES` makes
the attempt raise `HTTPError("Blocked …")`; `raise_for_status()` raises on
any 4xx/5xx status; otherwise the response is returned.  `RETRIES_PER_HOST`
additional attempts follow the first, with the last error re-raised at the
end (the backoff sleep has no observable effect in this model). -/

def BLOCK_CODES : List ℕ := [403, 429, 437]

def RETRIES_PER_HOST : ℕ := 2

structure HResp where
  status : ℕ
  body : String

inductive FetchOutcome where
  | resp (r : HResp)
  | connErr (msg : String)

inductive FetchErr where
  | blocked (code : ℕ)
  | httpStatus (code : ℕ)
  | conn (msg : String)
deriving DecidableEq

/-- One attempt of the `try` body: the block-code check, then
`raise_for_status()`, then `return r`. -/
def attemptOnce : FetchOutcome → Except FetchErr HResp
  | .connErr m => .error (.conn m)
  | .resp r =>
    if r.status ∈ BLOCK_CODES then .error (.blocked r.status)
    else if 400 ≤ r.status then .error (.httpStatus r.status)
    else .ok r

/-- The retry loop: `attempt` is the current attempt index, `fuel` the number
of retries still allowed (`RETRIES_PER_HOST - attempt`); on failure with no
fuel left the last error is raised. -/
def get_htmlLoop (responses : ℕ → FetchOutcome) : ℕ → ℕ → Except FetchErr HResp
  | attempt, fuel =>
    match attemptOnce (responses attempt), fuel with
    | .ok r, _ => .ok r
    | .error e, 0 => .error e
    | .error _, f + 1 => get_htmlLoop responses (attempt + 1) f

def get_html (responses : ℕ → FetchOutcome) : Except FetchErr HResp :=
  get_htmlLoop responses 0 RETRIES_PER_HOST

/-- Number of attempts actually performed. -/
def get_htmlAttempts (responses : ℕ → FetchOutcome) : ℕ → ℕ → ℕ
  | attempt, fuel =>
    match attemptOnce (responses attempt), fuel with
    | .ok _, _ => 1
    | .error _, 0 => 1
    | .error _, f + 1 => 1 + get_htmlAttempts responses (attempt + 1) f

/-- A fixed response sequence `[o1, o2, o3, o3, …]`. -/
def seq3 (o1 o2 o3 : FetchOutcome) : ℕ → FetchOutcome
  | 0 => o1
  | 1 => o2
  | _ => o3

theorem attemptOnce_ok {o : FetchOutcome} {r : HResp} (h : attemptOnce o = .ok r) :
    r.status ∉ BLOCK_CODES := by
  cases o with
  | connErr m => cases h
  | resp r3 =>
    simp only [attemptOnce] at h
    by_cases hb : r3.status ∈ BLOCK_CODES
    · rw [if_pos hb] at h; cases h
    · rw [if_neg hb] at h
      by_cases h4 : 400 ≤ r3.status
      · rw [if_pos h4] at h; cases h
      · rw [if_neg h4] at h
        have h3 : r3 = r := Except.ok.inj h
        rw [← h3]
        exact hb

theorem get_htmlLoop_ok (responses : ℕ → FetchOutcome) (attempt fuel : ℕ) (r : HResp)
    (h : attemptOnce (responses attempt) = .ok r) :
    get_htmlLoop responses attempt fuel = .ok r := by
  unfold get_htmlLoop
  rw [h]

theorem get_htmlLoop_err_zero (responses : ℕ → FetchOutcome) (attempt : ℕ) (e : FetchErr)
    (h : attemptOnce (responses attempt) = .error e) :
    get_htmlLoop responses attempt 0 = .error e := by
  unfold get_htmlLoop
  rw [h]

theorem get_htmlLoop_err_step (responses : ℕ → FetchOutcome) (attempt fuel : ℕ) (e : FetchErr)
    (h : attemptOnce (responses attempt) = .error e) :
    get_htmlLoop responses attempt (fuel + 1) = get_htmlLoop responses (attempt + 1) fuel := by
  conv_lhs => unfold get_htmlLoop
  rw [h]

theorem get_htmlAttempts_ok (responses : ℕ → FetchOutcome) (attempt fuel : ℕ) (r : HResp)
    (h : attemptOnce (responses attempt) = .ok r) :
    get_htmlAttempts responses attempt fuel = 1 := by
  unfold get_htmlAttempts
  rw [h]

theorem get_htmlAttempts_err_zero (responses : ℕ → FetchOutcome) (attempt : ℕ) (e : FetchErr)
    (h : attemptOnce (responses attempt) = .error e) :
    get_htmlAttempts responses attempt 0 = 1 := by
  unfold get_htmlAttempts
  rw [h]

theorem get_htmlAttempts_err_step (responses : ℕ → FetchOutcome) (attempt fuel : ℕ)
    (e : FetchErr) (h : attemptOnce (responses attempt) = .error e) :
    get_htmlAttempts responses attempt (fuel + 1) =
      1 + get_htmlAttempts responses (attempt + 1) fuel := by
  conv_lhs => unfold get_htmlAttempts
  rw [h]

theorem get_html_ok_not_blocked (responses : ℕ → FetchOutcome) :
    ∀ (fuel attempt : ℕ) (r : HResp), get_htmlLoop responses attempt fuel = .ok r →
      r.status ∉ BLOCK_CODES := by
  intro fuel
  induction fuel with
  | zero =>
    intro attempt r h
    cases ho : attemptOnce (responses attempt) with
    | ok r2 =>
      rw [get_htmlLoop_ok responses attempt 0 r2 ho] at h
      have h2 : r2 = r := Except.ok.inj h
      subst h2
      exact attemptOnce_ok ho
    | error e =>
      rw [get_htmlLoop_err_zero responses attempt e ho] at h
      cases h
  | succ f ih =>
    intro attempt r h
    cases ho : attemptOnce (responses attempt) with
    | ok r2 =>
      rw [get_htmlLoop_ok responses attempt (f + 1) r2 ho] at h
      have h2 : r2 = r := Except.ok.inj h
      subst h2
      exact attemptOnce_ok ho
    | error e =>
      rw [get_htmlLoop_err_step responses attempt f e ho] at h
      exact ih (attempt + 1) r h

/-- **C3**: with the configured 2 retries, (1) for the outcome sequence
`[blocked, blocked, success]` `get_html` returns the success response, making
three attempts; (2) for `[blocked, blocked, blocked]` it makes exactly three
attempts and raises the blocked error of the last attempt; (3) a blocked
response is never returned as a success; the `Except` result makes a silent
empty result on total failure impossible. -/
theorem claim_C3_retry_policy (s1 s2 s3 : ℕ) (r : HResp)
    (hb1 : s1 ∈ BLOCK_CODES) (hb2 : s2 ∈ BLOCK_CODES) (hb3 : s3 ∈ BLOCK_CODES)
    (hok1 : r.status ∉ BLOCK_CODES) (hok2 : r.status < 400) :
    get_html (seq3 (.resp ⟨s1, "b1"⟩) (.resp ⟨s2, "b2"⟩) (.resp r)) = .ok r ∧
    get_htmlAttempts (seq3 (.resp ⟨s1, "b1"⟩) (.resp ⟨s2, "b2"⟩) (.resp r)) 0
      RETRIES_PER_HOST = 3 ∧
    get_html (seq3 (.resp ⟨s1, "b1"⟩) (.resp ⟨s2, "b2"⟩) (.resp ⟨s3, "b3"⟩)) =
      .error (.blocked s3) ∧
    get_htmlAttempts (seq3 (.resp ⟨s1, "b1"⟩) (.resp ⟨s2, "b2"⟩) (.resp ⟨s3, "b3"⟩)) 0
      RETRIES_PER_HOST = 3 ∧
    (∀ (responses : ℕ → FetchOutcome) (r2 : HResp),
      get_html responses = .ok r2 → r2.status ∉ BLOCK_CODES) := by
  have ha1 : attemptOnce (.resp (HResp.mk s1 "b1")) = .error (.blocked s1) := by
    simp only [attemptOnce]
    rw [if_pos hb1]
  have ha2 : attemptOnce (.resp (HResp.mk s2 "b2")) = .error (.blocked s2) := by
    simp only [attemptOnce]
    rw [if_pos hb2]
  have ha3 : attemptOnce (.resp (HResp.mk s3 "b3")) = .error (.blocked s3) := by
    simp only [attemptOnce]
    rw [if_pos hb3]
  have har : attemptOnce (.resp r) = .ok r := by
    simp only [attemptOnce]
    rw [if_neg hok1, if_neg (not_le.mpr hok2)]
  refine ⟨?_, ?_, ?_, ?_, ?_⟩
  · calc get_html (seq3 (.resp ⟨s1, "b1"⟩) (.resp ⟨s2, "b2"⟩) (.resp r))
        = get_htmlLoop (seq3 (.resp ⟨s1, "b1"⟩) (.resp ⟨s2, "b2"⟩) (.resp r)) 0 (1 + 1) := rfl
      _ = get_htmlLoop (seq3 (.resp ⟨s1, "b1"⟩) (.resp ⟨s2, "b2"⟩) (.resp r)) (0 + 1) 1 :=
        get_htmlLoop_err_step _ 0 1 _ ha1
      _ = get_htmlLoop (seq3 (.resp ⟨s1, "b1"⟩) (.resp ⟨s2, "b2"⟩) (.resp r)) (0 + 1) (0 + 1) :=
        rfl
      _ = get_htmlLoop (seq3 (.resp ⟨s1, "b1"⟩) (.resp ⟨s2, "b2"⟩) (.resp r)) (0 + 1 + 1) 0 :=
        get_htmlLoop_err_step _ (0 + 1) 0 _ ha2
      _ = .ok r := get_htmlLoop_ok _ (0 + 1 + 1) 0 r har
  · calc get_htmlAttempts (seq3 (.resp ⟨s1, "b1"⟩) (.resp ⟨s2, "b2"⟩) (.resp r)) 0
          RETRIES_PER_HOST
        = get_htmlAttempts (seq3 (.resp ⟨s1, "b1"⟩) (.resp ⟨s2, "b2"⟩) (.resp r)) 0 (1 + 1) :=
        rfl
      _ = 1 + get_htmlAttempts (seq3 (.resp ⟨s1, "b1"⟩) (.resp ⟨s2, "b2"⟩) (.resp r)) (0 + 1) 1 :=
        get_htmlAttempts_err_step _ 0 1 _ ha1
      _ = 1 + get_htmlAttempts (seq3 (.resp ⟨s1, "b1"⟩) (.resp ⟨s2, "b2"⟩) (.resp r)) (0 + 1)
          (0 + 1) := rfl
      _ = 1 + (1 + get_htmlAttempts (seq3 (.resp ⟨s1, "b1"⟩) (.resp ⟨s2, "b2"⟩) (.resp r))
          (0 + 1 + 1) 0) := by rw [get_htmlAttempts_err_step _ (0 + 1) 0 _ ha2]
      _ = 1 + (1 + 1) := by rw [get_htmlAttempts_ok _ (0 + 1 + 1) 0 r har]
      _ = 3 := rfl
  · calc get_html (seq3 (.resp ⟨s1, "b1"⟩) (.resp ⟨s2, "b2"⟩) (.resp ⟨s3, "b3"⟩))
        = get_htmlLoop (seq3 (.resp ⟨s1, "b1"⟩) (.resp ⟨s2, "b2"⟩) (.resp ⟨s3, "b3"⟩)) 0
          (1 + 1) := rfl
      _ = get_htmlLoop (seq3 (.resp ⟨s1, "b1"⟩) (.resp ⟨s2, "b2"⟩) (.resp ⟨s3, "b3"⟩))
          (0 + 1) 1 := get_htmlLoop_err_step _ 0 1 _ ha1
      _ = get_htmlLoop (seq3 (.resp ⟨s1, "b1"⟩) (.resp ⟨s2, "b2"⟩) (.resp ⟨s3, "b3"⟩))
          (0 + 1) (0 + 1) := rfl
      _ = get_htmlLoop (seq3 (.resp ⟨s1, "b1"⟩) (.resp ⟨s2, "b2"⟩) (.resp ⟨s3, "b3"⟩))
          (0 + 1 + 1) 0 := get_htmlLoop_err_step _ (0 + 1) 0 _ ha2
      _ = .error (.blocked s3) := get_htmlLoop_err_zero _ (0 + 1 + 1) _ ha3
  · calc get_htmlAttempts (seq3 (.resp ⟨s1, "b1"⟩) (.resp ⟨s2, "b2"⟩) (.resp ⟨s3, "b3"⟩)) 0
          RETRIES_PER_HOST
        = get_htmlAttempts (seq3 (.resp ⟨s1, "b1"⟩) (.resp ⟨s2, "b2"⟩) (.resp ⟨s3, "b3"⟩)) 0
          (1 + 1) := rfl
      _ = 1 + get_htmlAttempts (seq3 (.resp ⟨s1, "b1"⟩) (.resp ⟨s2, "b2"⟩) (.resp ⟨s3, "b3"⟩))
          (0 + 1) 1 := get_htmlAttempts_err_step _ 0 1 _ ha1
      _ = 1 + get_htmlAttempts (seq3 (.resp ⟨s1, "b1"⟩) (.resp ⟨s2, "b2"⟩) (.resp ⟨s3, "b3"⟩))
          (0 + 1) (0 + 1) := rfl
      _ = 1 + (1 + get_htmlAttempts (seq3 (.resp ⟨s1, "b1"⟩) (.resp ⟨s2, "b2"⟩)
          (.resp ⟨s3, "b3"⟩)) (0 + 1 + 1) 0) := by
        rw [get_htmlAttempts_err_step _ (0 + 1) 0 _ ha2]
      _ = 1 + (1 + 1) := by rw [get_htmlAttempts_err_zero _ (0 + 1 + 1) _ ha3]
      _ = 3 := rfl
  · intro responses r2 h
    exact get_html_ok_not_blocked responses RETRIES_PER_HOST 0 r2 h

/-- **C3 witness**: the retry policy at concrete status codes. -/
theorem claim_C3_witness :
    (403 : ℕ) ∈ BLOCK_CODES ∧ (429 : ℕ) ∈ BLOCK_CODES ∧
    get_html (seq3 (.resp ⟨403, "b1"⟩) (.resp ⟨429, "b2"⟩) (.resp ⟨200, "ok"⟩)) =
      .ok ⟨200, "ok"⟩ :=
  ⟨by decide, by decide,
    (claim_C3_retry_policy 403 429 437 ⟨200, "ok"⟩ (by decide) (by decide) (by decide)
      (by decide) (by decide)).1⟩

/-! ### C4: `fetch_movie_page_any` — mirror iteration order

```python
MIRRORS = [
    "https://yifysubtitles.ch",
    "https://yts-subs.com",
]

def fetch_movie_page_any(preferred_base, tt):
    bases = [preferred_base] + [b for b in MIRRORS if b != preferred_base]
    for base in bases:
        url = urllib.parse.urljoin(base, f"/movie-imdb/{tt}")
        try:
            html = get_html(url).text
            return html, base
        except Exception:
            continue
    raise RuntimeError(f"All mirrors failed for IMDb {tt}")
```

The network is abstracted as a function `fetch : String → Except String String`
from the URL to either the page text or the exception message; the mirror bases
are bare origins, for which `urljoin(base, "/movie-imdb/{tt}")` is the
concatenation `base ++ "/movie-imdb/" ++ tt`. -/

def MIRRORS : List String := ["https://yifysubtitles.ch", "https://yts-subs.com"]

def movieUrl (base tt : String) : String := base ++ "/movie-imdb/" ++ tt

/-- `bases = [preferred_base] + [b for b in MIRRORS if b != preferred_base]`. -/
def movieBases (preferred : String) : List String :=
  preferred :: MIRRORS.filter (fun b => b ≠ preferred)

/-- The `for base in bases` loop with its `try/except: continue` body. -/
def fetchLoop (fetch : String → Except String String) (tt : String) :
    List String → Except String (String × String)
  | [] => .error ("All mirrors failed for IMDb " ++ tt)
  | base :: rest =>
    match fetch (movieUrl base tt) with
    | .ok html => .ok (html, base)
    | .error _ => fetchLoop fetch tt rest

def fetch_movie_page_any (fetch : String → Except String String)
    (preferred tt : String) : Except String (String × String) :=
  fetchLoop fetch tt (movieBases preferred)

theorem fetchLoop_first_success (fetch : String → Except String String) (tt : String)
    (l1 l2 : List String) (b html : String)
    (hfail : ∀ x ∈ l1, ∃ e, fetch (movieUrl x tt) = .error e)
    (hok : fetch (movieUrl b tt) = .ok html) :
    fetchLoop fetch tt (l1 ++ b :: l2) = .ok (html, b) := by
  induction l1 with
  | nil =>
    simp only [List.nil_append]
    unfold fetchLoop
    rw [hok]
  | cons x xs ih =>
    obtain ⟨e, he⟩ := hfail x (List.mem_cons_self x xs)
    have h2 : fetchLoop fetch tt ((x :: xs) ++ b :: l2) = fetchLoop fetch tt (xs ++ b :: l2) := by
      simp only [List.cons_append]
      conv_lhs => unfold fetchLoop
      rw [he]
    rw [h2]
    exact ih (fun y hy => hfail y (List.mem_cons_of_mem x hy))

theorem fetchLoop_all_fail (fetch : String → Except String String) (tt : String)
    (l : List String) (hfail : ∀ x ∈ l, ∃ e, fetch (movieUrl x tt) = .error e) :
    fetchLoop fetch tt l = .error ("All mirrors failed for IMDb " ++ tt) := by
  induction l with
  | nil => rfl
  | cons x xs ih =>
    obtain ⟨e, he⟩ := hfail x (List.mem_cons_self x xs)
    have h2 : fetchLoop fetch tt (x :: xs) = fetchLoop fetch tt xs := by
      conv_lhs => unfold fetchLoop
      rw [he]
    rw [h2]
    exact ih (fun y hy => hfail y (List.mem_cons_of_mem x hy))

theorem MIRRORS_nodup : MIRRORS.Nodup := by decide

/-- **C4**: the iteration order of `fetch_movie_page_any`.  (1) The first base
tried is the preferred mirror; (2) the remaining bases are a subsequence of the
configured `MIRRORS`, hence in their original order; (3) no base is tried twice;
(4) if the bases split as `l1 ++ b :: l2` where every fetch in `l1` raises and
the fetch of `b` succeeds with `html`, the call returns `(html, b)` — the first
success wins; (5) if every base's fetch raises, the call signals the terminal
error naming the IMDb identifier. -/
theorem claim_C4_mirror_iteration (fetch : String → Except String String)
    (preferred tt : String) :
    (movieBases preferred).head? = some preferred ∧
    (movieBases preferred).tail.Sublist MIRRORS ∧
    (movieBases preferred).Nodup ∧
    (∀ l1 b l2 html, movieBases preferred = l1 ++ b :: l2 →
      (∀ x ∈ l1, ∃ e, fetch (movieUrl x tt) = .error e) →
      fetch (movieUrl b tt) = .ok html →
      fetch_movie_page_any fetch preferred tt = .ok (html, b)) ∧
    ((∀ x ∈ movieBases preferred, ∃ e, fetch (movieUrl x tt) = .error e) →
      fetch_movie_page_any fetch preferred tt =
        .error ("All mirrors failed for IMDb " ++ tt)) := by
  refine ⟨rfl, ?_, ?_, ?_, ?_⟩
  · simp only [movieBases, List.tail_cons]
    exact List.filter_sublist MIRRORS
  · refine List.nodup_cons.mpr ⟨?_, MIRRORS_nodup.filter _⟩
    intro hmem
    have h2 := List.of_mem_filter hmem
    simp only [decide_eq_true_eq] at h2
    exact h2 rfl
  · intro l1 b l2 html hsplit hfail hok
    unfold fetch_movie_page_any
    rw [hsplit]
    exact fetchLoop_first_success fetch tt l1 l2 b html hfail hok
  · intro hfail
    exact fetchLoop_all_fail fetch tt (movieBases preferred) hfail

/-- A concrete network for the C4 witness: the first mirror raises, the second
serves the page. -/
def fetchW : String → Except String String :=
  fun u => if u = "https://yts-subs.com/movie-imdb/tt0111161" then .ok "PAGE"
           else .error "boom"

/-- **C4 witness**: with the first mirror failing and the second serving the
page, the call returns the page with the second mirror's base. -/
theorem claim_C4_witness :
    fetch_movie_page_any fetchW "https://yifysubtitles.ch" "tt0111161" =
      .ok ("PAGE", "https://yts-subs.com") := by
  have h := (claim_C4_mirror_iteration fetchW "https://yifysubtitles.ch" "tt0111161").2.2.2.1
    ["https://yifysubtitles.ch"] "https://yts-subs.com" [] "PAGE"
    (by decide)
    (by
      intro x hx
      have hx2 : x = "https://yifysubtitles.ch" := by
        cases hx with
        | head => rfl
        | tail _ h2 => cases h2
      exact ⟨"boom", by rw [hx2]; rfl⟩)
    (by rfl)
  exact h


/-! ### Decimal rendering of naturals

The collision loop in `safe_move` builds candidate names with the f-string
`f"{root} ({i}){ext}"`; `{i}` renders the attempt counter in decimal.  The
rendering is given fuel (`n + 1` digits always suffice) so that it computes by
kernel reduction, and is proved injective via the decimal place-value map. -/

def dChar (d : ℕ) : Char := Char.ofNat (48 + d)

def decDigits : ℕ → ℕ → List ℕ
  | 0, _ => []
  | fuel + 1, n => if n < 10 then [n] else decDigits fuel (n / 10) ++ [n % 10]

def natDec (n : ℕ) : String := ⟨(decDigits (n + 1) n).map dChar⟩

/-- Decimal place-value of a most-significant-first digit list, on top of an
accumulator. -/
def pv (a : ℕ) : List ℕ → ℕ
  | [] => a
  | d :: ds => pv (a * 10 + d) ds

theorem pv_append (xs ys : List ℕ) : ∀ a, pv a (xs ++ ys) = pv (pv a xs) ys := by
  induction xs with
  | nil => intro a; rfl
  | cons x xs ih => intro a; simp only [List.cons_append, pv]; exact ih _

theorem decDigits_spec : ∀ fuel n, n < 10 ^ fuel → ∀ a,
    pv a (decDigits fuel n) = a * 10 ^ (decDigits fuel n).length + n := by
  intro fuel
  induction fuel with
  | zero =>
    intro n hn a
    interval_cases n
    simp [decDigits, pv]
  | succ f ih =>
    intro n hn a
    by_cases h10 : n < 10
    · simp [decDigits, if_pos h10, pv]
    · have hdiv : n / 10 < 10 ^ f := by
        have h2 : n < 10 ^ f * 10 := by rw [← pow_succ]; exact hn
        omega
      simp only [decDigits, if_neg h10]
      rw [pv_append, ih (n / 10) hdiv a]
      simp only [pv, List.length_append, List.length_cons, List.length_nil]
      have hmod : n / 10 * 10 + n % 10 = n := Nat.div_add_mod' n 10
      calc (a * 10 ^ (decDigits f (n / 10)).length + n / 10) * 10 + n % 10
          = a * (10 ^ (decDigits f (n / 10)).length * 10) + (n / 10 * 10 + n % 10) := by ring
        _ = a * 10 ^ ((decDigits f (n / 10)).length + (0 + 1)) + n := by
            rw [hmod, Nat.zero_add, pow_succ]

theorem decDigits_val (n : ℕ) : pv 0 (decDigits (n + 1) n) = n := by
  have hn : n < 10 ^ (n + 1) :=
    lt_of_lt_of_le (Nat.lt_pow_self (by norm_num) n)
      (Nat.pow_le_pow_right (by norm_num) (Nat.le_succ n))
  rw [decDigits_spec (n + 1) n hn 0]
  simp

theorem decDigits_lt : ∀ fuel n d, d ∈ decDigits fuel n → d < 10 := by
  intro fuel
  induction fuel with
  | zero => intro n d hd; simp [decDigits] at hd
  | succ f ih =>
    intro n d hd
    simp only [decDigits] at hd
    by_cases h10 : n < 10
    · rw [if_pos h10] at hd
      cases hd with
      | head => exact h10
      | tail _ h => cases h
    · rw [if_neg h10] at hd
      rcases List.mem_append.mp hd with h1 | h2
      · exact ih _ _ h1
      · cases h2 with
        | head => exact Nat.mod_lt _ (by norm_num)
        | tail _ h => cases h

theorem dChar_inj (d1 d2 : ℕ) (h1 : d1 < 10) (h2 : d2 < 10) (h : dChar d1 = dChar d2) :
    d1 = d2 := by
  interval_cases d1 <;> interval_cases d2 <;> revert h <;> decide

theorem map_dChar_inj : ∀ xs ys : List ℕ, (∀ x ∈ xs, x < 10) → (∀ y ∈ ys, y < 10) →
    xs.map dChar = ys.map dChar → xs = ys := by
  intro xs
  induction xs with
  | nil =>
    intro ys _ _ h
    cases ys with
    | nil => rfl
    | cons y ys => simp at h
  | cons x xs ih =>
    intro ys hx hy h
    cases ys with
    | nil => simp at h
    | cons y ys =>
      simp only [List.map_cons, List.cons.injEq] at h
      have hxy := dChar_inj x y (hx x (List.mem_cons_self x xs))
        (hy y (List.mem_cons_self y ys)) h.1
      rw [hxy,
        ih ys (fun a ha => hx a (List.mem_cons_of_mem x ha))
          (fun a ha => hy a (List.mem_cons_of_mem y ha)) h.2]

theorem natDec_inj (m n : ℕ) (h : natDec m = natDec n) : m = n := by
  have hd : (decDigits (m + 1) m).map dChar = (decDigits (n + 1) n).map dChar :=
    congrArg String.data h
  have hdd : decDigits (m + 1) m = decDigits (n + 1) n :=
    map_dChar_inj _ _ (fun x hx => decDigits_lt _ _ _ hx) (fun y hy => decDigits_lt _ _ _ hy) hd
  have hv := decDigits_val m
  rw [hdd, decDigits_val n] at hv
  exact hv.symm


/-! ### C1/C9: filesystem model, `safe_move`, `extract_and_rename`

```python
def safe_move(src_path, dest_path, overwrite=False):
    os.makedirs(os.path.dirname(dest_path), exist_ok=True)
    target = dest_path
    if not same_drive(src_path, dest_path):
        if overwrite and os.path.exists(dest_path):
            try: os.remove(dest_path)
            except OSError: pass
        elif not overwrite and os.path.exists(dest_path):
            root, ext = os.path.splitext(dest_path)
            i = 1
            while True:
                cand = f"{root} ({i}){ext}"
                if not os.path.exists(cand):
                    target = cand; break
                i += 1
        shutil.copy2(src_path, target)
        try: os.remove(src_path)
        except OSError: pass
        return target
    if overwrite:
        try: os.replace(src_path, dest_path)
        except OSError:
            if os.path.exists(dest_path):
                try: os.remove(dest_path)
                except OSError: pass
            shutil.move(src_path, dest_path)
        return dest_path
    if os.path.exists(dest_path):
        root, ext = os.path.splitext(dest_path)
        i = 1
        while True:
            cand = f"{root} ({i}){ext}"
            if not os.path.exists(cand):
                target = cand; break
            i += 1
    os.replace(src_path, target)
    return target
```

The filesystem is a flat association list from absolute path to byte content;
directories are implicit, so `os.makedirs` is a no-op and `os.path.abspath` is
the identity (the paths involved are already absolute).  File operations do
not raise in the model, so the cross-drive branch (`copy2` + `remove`) and the
same-drive branch (`os.replace`, with its
`except OSError` fallback unreachable) have the same effect: the source entry
is removed and its content written at the target.  `same_drive` compares
drive letters of the two paths; it is abstracted as the boolean parameter
`sameDrive`.  The `while True` collision loop is given fuel `fs.length + 1`,
which `freeNameGo_total` proves sufficient, so the loop in the model never
fails where Python's terminates. -/

abbrev Content := List ℕ

abbrev FS := List (String × Content)

def fsExists (fs : FS) (p : String) : Bool := (fs.lookup p).isSome

def fsRemove : FS → String → FS
  | [], _ => []
  | kv :: rest, p => if kv.1 = p then fsRemove rest p else kv :: fsRemove rest p

def fsWrite (fs : FS) (p : String) (c : Content) : FS := (p, c) :: fsRemove fs p

/-- `f"{root} ({i}){ext}"`. -/
def candName (root ext : String) (i : ℕ) : String :=
  root ++ " (" ++ natDec i ++ ")" ++ ext

/-- The `while True` collision loop: try `i`, `i+1`, … until a free name. -/
def freeNameGo (fs : FS) (root ext : String) : ℕ → ℕ → Option String
  | _, 0 => none
  | i, fuel + 1 =>
    if fsExists fs (candName root ext i) then freeNameGo fs root ext (i + 1) fuel
    else some (candName root ext i)

def findFree (fs : FS) (dest : String) : Option String :=
  freeNameGo fs (splitext dest).1 (splitext dest).2 1 (fs.length + 1)

def safe_move (sameDrive : Bool) (fs : FS) (src_path dest_path : String)
    (overwrite : Bool) : Option (FS × String) :=
  match fs.lookup src_path with
  | none => none
  | some content =>
    if sameDrive = false then
      if overwrite then some (fsWrite (fsRemove fs src_path) dest_path content, dest_path)
      else if fsExists fs dest_path then
        match findFree fs dest_path with
        | none => none
        | some cand => some (fsWrite (fsRemove fs src_path) cand content, cand)
      else some (fsWrite (fsRemove fs src_path) dest_path content, dest_path)
    else
      if overwrite then some (fsWrite (fsRemove fs src_path) dest_path content, dest_path)
      else if fsExists fs dest_path then
        match findFree fs dest_path with
        | none => none
        | some cand => some (fsWrite (fsRemove fs src_path) cand content, cand)
      else some (fsWrite (fsRemove fs src_path) dest_path content, dest_path)

/-! #### Path helpers for `extract_and_rename`

```python
def extract_and_rename(zip_path, movie_filepath, lang_suffix, overwrite=False):
    base, _ = os.path.splitext(movie_filepath)
    target = os.path.abspath(f"{base}.{lang_suffix}.srt")
    tempdir = tempfile.mkdtemp(prefix="subs_")
    found = []
    try:
        with ZipFile(zip_path) as zf:
            for member in zf.namelist():
                if member.lower().endswith(".srt") and not member.endswith("/"):
                    zf.extract(member, tempdir)
                    found.append(os.path.join(tempdir, *member.split("/")))
        if not found:
            return False, "ZIP had no .srt"
        found.sort(key=lambda p: os.path.getsize(p), reverse=True)
        chosen = found[0]
        saved = safe_move(chosen, target, overwrite=overwrite)
        return True, os.path.basename(saved)
    except Exception as e:
        return False, str(e)
    finally:
        try: shutil.rmtree(tempdir, ignore_errors=True)
        except: pass
        try: os.remove(zip_path)
        except: pass
```

The archive is abstracted by `parseZip`, mapping the staged file's bytes to
the member list (name, content) or `none` when `ZipFile` raises (corrupt
file); `tempfile.mkdtemp` is abstracted by the `tempdir` argument.
`found.sort(key=..., reverse=True)` is a stable descending sort by size, so
`found[0]` is the first entry of maximal size, computed here by a fold that
replaces the champion only on strictly larger size. -/

def strLeads : List Char → List Char → Bool
  | [], _ => true
  | _ :: _, [] => false
  | c :: cs, d :: ds => c == d && strLeads cs ds

/-- Python `s.endswith(suf)`. -/
def strEnds (suf s : String) : Bool := strLeads suf.data.reverse s.data.reverse

/-- Python `s.split("/")`. -/
def splitSlashGo : List Char → List Char → List String
  | [], acc => [⟨acc.reverse⟩]
  | c :: cs, acc =>
    if c = '/' then ⟨acc.reverse⟩ :: splitSlashGo cs [] else splitSlashGo cs (c :: acc)

def splitSlash (s : String) : List String := splitSlashGo s.data []

/-- One step of POSIX `os.path.join`. -/
def joinPart (acc p : String) : String :=
  if strLeads "/".data p.data then p
  else if acc = "" ∨ strEnds "/" acc then acc ++ p
  else acc ++ "/" ++ p

def joinPath (acc : String) (ps : List String) : String := ps.foldl joinPart acc

/-- `os.path.join(tempdir, *member.split("/"))`. -/
def extractedPath (tempdir member : String) : String := joinPath tempdir (splitSlash member)

/-- `os.path.basename`. -/
def basename (p : String) : String :=
  ⟨(p.data.reverse.takeWhile (fun c => !(c = '/'))).reverse⟩

/-- `member.lower().endswith(".srt") and not member.endswith("/")`. -/
def isSrtMember (m : String) : Bool := strEnds ".srt" (strLower m) && !(strEnds "/" m)

/-- `os.path.getsize`. -/
def fileSize (fs : FS) (p : String) : ℕ := ((fs.lookup p).getD []).length

/-- `found.sort(key=lambda p: os.path.getsize(p), reverse=True)` followed by
`found[0]`: the first element of maximal size (the stable descending sort
keeps the earliest among ties in front). -/
def firstMaxBy (sz : String → ℕ) : List String → Option String
  | [] => none
  | x :: xs => some (xs.foldl (fun b y => if sz b < sz y then y else b) x)

/-- The `zf.extract(member, tempdir)` calls for the `.srt` members. -/
def extractAll (tempdir : String) (fs : FS) (members : List (String × Content)) : FS :=
  members.foldl (fun f m => fsWrite f (extractedPath tempdir m.1) m.2) fs

/-- The `finally` block: `shutil.rmtree(tempdir)` then `os.remove(zip_path)`. -/
def cleanupFS (fs : FS) (tempdir zip_path : String) : FS :=
  fsRemove (fs.filter (fun kv => !(strLeads (tempdir ++ "/").data kv.1.data))) zip_path

/-- The `try` body of `extract_and_rename` (everything before `finally`); the
result carries the flag, the message and the filesystem as left by the body.
The first two error messages stand for the `str(e)` of the exceptions raised
by `ZipFile` on a missing / corrupt staged file. -/
def extractInner (parseZip : Content → Option (List (String × Content)))
    (sameDrive : Bool) (fs : FS) (zip_path movie_filepath lang_suffix tempdir : String)
    (overwrite : Bool) : Bool × String × FS :=
  let target := (splitext movie_filepath).1 ++ "." ++ lang_suffix ++ ".srt"
  match fs.lookup zip_path with
  | none => (false, "No such file or directory", fs)
  | some bytes =>
    match parseZip bytes with
    | none => (false, "File is not a zip file", fs)
    | some members =>
      let srt := members.filter (fun m => isSrtMember m.1)
      let fs2 := extractAll tempdir fs srt
      match firstMaxBy (fileSize fs2) (srt.map (fun m => extractedPath tempdir m.1)) with
      | none => (false, "ZIP had no .srt", fs2)
      | some chosen =>
        match safe_move sameDrive fs2 chosen target overwrite with
        | none => (false, "move failed", fs2)
        | some (fs3, saved) => (true, basename saved, fs3)

def extract_and_rename (parseZip : Content → Option (List (String × Content)))
    (sameDrive : Bool) (fs : FS) (zip_path movie_filepath lang_suffix tempdir : String)
    (overwrite : Bool) : Bool × String × FS :=
  let r := extractInner parseZip sameDrive fs zip_path movie_filepath lang_suffix tempdir
    overwrite
  (r.1, r.2.1, cleanupFS r.2.2 tempdir zip_path)


theorem lookup_fsRemove_self (fs : FS) (p : String) : (fsRemove fs p).lookup p = none := by
  induction fs with
  | nil => rfl
  | cons kv rest ih =>
    by_cases hk : kv.1 = p
    · simp only [fsRemove, if_pos hk]
      exact ih
    · simp only [fsRemove, if_neg hk]
      obtain ⟨k, v⟩ := kv
      simp only [List.lookup]
      have hb : (p == k) = false := beq_eq_false_iff_ne.mpr (fun he => hk he.symm)
      rw [hb]
      exact ih

theorem lookup_fsRemove_ne (fs : FS) (p q : String) (h : q ≠ p) :
    (fsRemove fs p).lookup q = fs.lookup q := by
  induction fs with
  | nil => rfl
  | cons kv rest ih =>
    obtain ⟨k, v⟩ := kv
    by_cases hk : k = p
    · simp only [fsRemove, if_pos hk]
      rw [ih]
      have hb : (q == k) = false := beq_eq_false_iff_ne.mpr (by rw [hk]; exact h)
      simp only [List.lookup]
      rw [hb]
    · simp only [fsRemove, if_neg hk]
      by_cases hq : k = q
      · simp only [List.lookup]
        rw [beq_iff_eq.mpr hq.symm]
      · simp only [List.lookup]
        rw [beq_eq_false_iff_ne.mpr (fun he => hq he.symm)]
        exact ih

theorem lookup_fsWrite_self (fs : FS) (p : String) (c : Content) :
    (fsWrite fs p c).lookup p = some c := by
  simp only [fsWrite, List.lookup]
  rw [beq_iff_eq.mpr rfl]

theorem lookup_fsWrite_ne (fs : FS) (p : String) (c : Content) (q : String) (h : q ≠ p) :
    (fsWrite fs p c).lookup q = fs.lookup q := by
  simp only [fsWrite, List.lookup]
  rw [beq_eq_false_iff_ne.mpr h]
  exact lookup_fsRemove_ne fs p q h

theorem mem_fsRemove (fs : FS) (p : String) (kv : String × Content)
    (h : kv ∈ fsRemove fs p) : kv ∈ fs ∧ kv.1 ≠ p := by
  induction fs with
  | nil => cases h
  | cons kw rest ih =>
    by_cases hk : kw.1 = p
    · rw [fsRemove, if_pos hk] at h
      obtain ⟨h1, h2⟩ := ih h
      exact ⟨List.mem_cons_of_mem kw h1, h2⟩
    · rw [fsRemove, if_neg hk] at h
      cases h with
      | head => exact ⟨List.mem_cons_self kv rest, hk⟩
      | tail _ h2 =>
        obtain ⟨h1, h3⟩ := ih h2
        exact ⟨List.mem_cons_of_mem kw h1, h3⟩

theorem fsExists_cleanupFS (fs : FS) (tempdir zip_path : String) :
    fsExists (cleanupFS fs tempdir zip_path) zip_path = false := by
  simp only [fsExists, cleanupFS, lookup_fsRemove_self, Option.isSome_none]

theorem mem_cleanupFS (fs : FS) (tempdir zip_path : String) (kv : String × Content)
    (h : kv ∈ cleanupFS fs tempdir zip_path) :
    strLeads (tempdir ++ "/").data kv.1.data = false := by
  obtain ⟨h1, _⟩ := mem_fsRemove _ _ _ h
  have h2 := List.of_mem_filter h1
  simp only [Bool.not_eq_eq_eq_not, Bool.not_true] at h2
  exact h2

/-- **C9**: on every exit path of `extract_and_rename` — success, "ZIP had
no .srt", or an exception converted into a failure result — the returned
filesystem contains neither any file under the temporary extraction directory
nor the staged archive file: the `finally` cleanup runs on all paths. -/
theorem claim_C9_cleanup (parseZip : Content → Option (List (String × Content)))
    (sameDrive : Bool) (fs : FS) (zip_path movie_filepath lang_suffix tempdir : String)
    (overwrite : Bool) :
    fsExists (extract_and_rename parseZip sameDrive fs zip_path movie_filepath lang_suffix
      tempdir overwrite).2.2 zip_path = false ∧
    ∀ kv ∈ (extract_and_rename parseZip sameDrive fs zip_path movie_filepath lang_suffix
      tempdir overwrite).2.2, strLeads (tempdir ++ "/").data kv.1.data = false := by
  have he : (extract_and_rename parseZip sameDrive fs zip_path movie_filepath lang_suffix
      tempdir overwrite).2.2 =
      cleanupFS (extractInner parseZip sameDrive fs zip_path movie_filepath lang_suffix
        tempdir overwrite).2.2 tempdir zip_path := rfl
  rw [he]
  exact ⟨fsExists_cleanupFS _ _ _, fun kv hkv => mem_cleanupFS _ _ _ kv hkv⟩

/-- **C9 witness**: a concrete corrupt-archive run (the `except` path): the
staged zip is removed and no file under the temporary directory remains. -/
theorem claim_C9_witness :
    fsExists (extract_and_rename (fun _ => none) true
      [("/dl/pack.zip", [7]), ("/tmp/subs_w/x.srt", [1])] "/dl/pack.zip" "/m/name.mp4" "en"
      "/tmp/subs_w" false).2.2 "/dl/pack.zip" = false ∧
    ∀ kv ∈ (extract_and_rename (fun _ => none) true
      [("/dl/pack.zip", [7]), ("/tmp/subs_w/x.srt", [1])] "/dl/pack.zip" "/m/name.mp4" "en"
      "/tmp/subs_w" false).2.2, strLeads ("/tmp/subs_w" ++ "/").data kv.1.data = false :=
  claim_C9_cleanup (fun _ => none) true [("/dl/pack.zip", [7]), ("/tmp/subs_w/x.srt", [1])]
    "/dl/pack.zip" "/m/name.mp4" "en" "/tmp/subs_w" false


theorem str_data_append (a b : String) : (a ++ b).data = a.data ++ b.data := rfl

theorem candName_inj (root ext : String) (i j : ℕ)
    (h : candName root ext i = candName root ext j) : i = j := by
  have hd := congrArg String.data h
  simp only [candName, str_data_append, List.append_assoc] at hd
  have h2 := List.append_cancel_left (List.append_cancel_left hd)
  have h3 := List.append_cancel_right h2
  exact natDec_inj i j (congrArg String.mk h3)

def candList (root ext : String) : ℕ → ℕ → List String
  | _, 0 => []
  | i, fuel + 1 => candName root ext i :: candList root ext (i + 1) fuel

theorem candList_length (root ext : String) :
    ∀ fuel i, (candList root ext i fuel).length = fuel := by
  intro fuel
  induction fuel with
  | zero => intro i; rfl
  | succ f ih => intro i; simp only [candList, List.length_cons, ih]

theorem mem_candList (root ext : String) : ∀ fuel i c, c ∈ candList root ext i fuel →
    ∃ n, i ≤ n ∧ n < i + fuel ∧ c = candName root ext n := by
  intro fuel
  induction fuel with
  | zero => intro i c hc; simp [candList] at hc
  | succ f ih =>
    intro i c hc
    cases hc with
    | head => exact ⟨i, le_refl i, by omega, rfl⟩
    | tail _ h2 =>
      obtain ⟨n, hn1, hn2, hn3⟩ := ih (i + 1) c h2
      exact ⟨n, by omega, by omega, hn3⟩

theorem candList_nodup (root ext : String) :
    ∀ fuel i, (candList root ext i fuel).Nodup := by
  intro fuel
  induction fuel with
  | zero => intro i; exact List.nodup_nil
  | succ f ih =>
    intro i
    refine List.nodup_cons.mpr ⟨?_, ih (i + 1)⟩
    intro hmem
    obtain ⟨n, hn1, _, hn3⟩ := mem_candList root ext f (i + 1) _ hmem
    have := candName_inj root ext i n hn3
    omega

theorem mem_keys_of_lookup : ∀ (fs : FS) (p : String) (v : Content),
    fs.lookup p = some v → p ∈ fs.map Prod.fst := by
  intro fs
  induction fs with
  | nil => intro p v h; cases h
  | cons kv rest ih =>
    intro p v h
    obtain ⟨k, w⟩ := kv
    simp only [List.lookup] at h
    by_cases hk : p = k
    · simp only [List.map_cons]
      rw [hk]
      exact List.mem_cons_self k _
    · rw [beq_eq_false_iff_ne.mpr hk] at h
      have h2 : List.lookup p rest = some v := h
      exact List.mem_cons_of_mem k (ih p v h2)

theorem mem_keys_of_fsExists (fs : FS) (p : String) (h : fsExists fs p = true) :
    p ∈ fs.map Prod.fst := by
  simp only [fsExists, Option.isSome_iff_exists] at h
  obtain ⟨v, hv⟩ := h
  exact mem_keys_of_lookup fs p v hv

theorem freeNameGo_none_all (fs : FS) (root ext : String) : ∀ fuel i,
    freeNameGo fs root ext i fuel = none →
    ∀ c ∈ candList root ext i fuel, c ∈ fs.map Prod.fst := by
  intro fuel
  induction fuel with
  | zero => intro i _ c hc; simp [candList] at hc
  | succ f ih =>
    intro i h c hc
    simp only [freeNameGo] at h
    by_cases hf : fsExists fs (candName root ext i) = true
    · rw [if_pos hf] at h
      cases hc with
      | head => exact mem_keys_of_fsExists fs _ hf
      | tail _ h2 => exact ih (i + 1) h c h2
    · rw [if_neg hf] at h
      cases h

theorem freeNameGo_total (fs : FS) (root ext : String) (i : ℕ) :
    freeNameGo fs root ext i (fs.length + 1) ≠ none := by
  intro h
  have hsub := freeNameGo_none_all fs root ext (fs.length + 1) i h
  have hnd := candList_nodup root ext (fs.length + 1) i
  have hsp : List.Subperm (candList root ext i (fs.length + 1)) (fs.map Prod.fst) :=
    List.subperm_of_subset hnd (fun c hc => hsub c hc)
  have hle := hsp.length_le
  rw [candList_length, List.length_map] at hle
  omega

theorem freeNameGo_spec (fs : FS) (root ext : String) : ∀ fuel i c,
    freeNameGo fs root ext i fuel = some c →
    ∃ n, i ≤ n ∧ c = candName root ext n ∧ fsExists fs (candName root ext n) = false ∧
      ∀ j, i ≤ j → j < n → fsExists fs (candName root ext j) = true := by
  intro fuel
  induction fuel with
  | zero => intro i c h; simp [freeNameGo] at h
  | succ f ih =>
    intro i c h
    simp only [freeNameGo] at h
    by_cases hf : fsExists fs (candName root ext i) = true
    · rw [if_pos hf] at h
      obtain ⟨n, hn1, hc, hfree, hall⟩ := ih (i + 1) c h
      refine ⟨n, by omega, hc, hfree, fun j hj1 hj2 => ?_⟩
      rcases Nat.eq_or_lt_of_le hj1 with heq | hlt
      · rw [← heq]; exact hf
      · exact hall j hlt hj2
    · rw [if_neg hf] at h
      refine ⟨i, le_refl i, (Option.some.inj h).symm, ?_, fun j hj1 hj2 => absurd hj2 (by omega)⟩
      exact Bool.eq_false_iff.mpr hf


theorem safe_move_collision (sameDrive : Bool) (fs : FS) (src dest : String)
    (content : Content) (cand : String) (hsrc : fs.lookup src = some content)
    (hex : fsExists fs dest = true) (hff : findFree fs dest = some cand) :
    safe_move sameDrive fs src dest false =
      some (fsWrite (fsRemove fs src) cand content, cand) := by
  unfold safe_move
  rw [hsrc]
  cases sameDrive <;> simp [hex, hff]

/-- **C1 (amended)**: with `overwrite=false` and an existing target, `safe_move`
moves the source to `f"{root} ({n}){ext}"` where `(root, ext)` is
`os.path.splitext(dest)` — the counter is inserted before the LAST extension
only, so a multi-suffix target `name.en.srt` collides to `name.en (1).srt`,
not `name (1).en.srt` — with `n` the least index `≥ 1` whose candidate name is
free (every smaller index is occupied), and the file previously at the target
path keeps its content byte for byte. -/
theorem claim_C1_amended (sameDrive : Bool) (fs : FS) (src dest : String)
    (content : Content) (hsrc : fs.lookup src = some content)
    (hex : fsExists fs dest = true) (hne : src ≠ dest) :
    ∃ n fs2, 1 ≤ n ∧
      safe_move sameDrive fs src dest false =
        some (fs2, candName (splitext dest).1 (splitext dest).2 n) ∧
      fsExists fs (candName (splitext dest).1 (splitext dest).2 n) = false ∧
      (∀ j, 1 ≤ j → j < n →
        fsExists fs (candName (splitext dest).1 (splitext dest).2 j) = true) ∧
      fs2.lookup dest = fs.lookup dest ∧
      fs2.lookup (candName (splitext dest).1 (splitext dest).2 n) = some content := by
  cases hff : findFree fs dest with
  | none => exact absurd hff (freeNameGo_total fs _ _ 1)
  | some cand =>
    obtain ⟨n, hn1, hceq, hfree, hbusy⟩ := freeNameGo_spec fs _ _ _ 1 cand hff
    subst hceq
    have hcd : candName (splitext dest).1 (splitext dest).2 n ≠ dest := by
      intro he
      rw [he, hex] at hfree
      cases hfree
    refine ⟨n, fsWrite (fsRemove fs src) (candName (splitext dest).1 (splitext dest).2 n)
      content, hn1, ?_, hfree, hbusy, ?_, ?_⟩
    · exact safe_move_collision sameDrive fs src dest content _ hsrc hex hff
    · rw [lookup_fsWrite_ne _ _ _ _ (fun he => hcd he.symm)]
      exact lookup_fsRemove_ne fs src dest (fun he => hne he.symm)
    · exact lookup_fsWrite_self _ _ _

/-- **C1 witness**: a concrete collision at target `/m/name.en.srt` lands the
artifact at `/m/name.en (1).srt` (index 1). -/
theorem claim_C1_witness :
    (([("/t/a.srt", [1]), ("/m/name.en.srt", [2])] : FS).lookup "/t/a.srt" =
      some [1]) ∧
    fsExists [("/t/a.srt", [1]), ("/m/name.en.srt", [2])] "/m/name.en.srt" = true ∧
    (∃ n fs2, 1 ≤ n ∧
      safe_move true [("/t/a.srt", [1]), ("/m/name.en.srt", [2])] "/t/a.srt"
        "/m/name.en.srt" false =
        some (fs2, candName (splitext "/m/name.en.srt").1 (splitext "/m/name.en.srt").2 n) ∧
      fsExists [("/t/a.srt", [1]), ("/m/name.en.srt", [2])]
        (candName (splitext "/m/name.en.srt").1 (splitext "/m/name.en.srt").2 n) = false ∧
      (∀ j, 1 ≤ j → j < n →
        fsExists [("/t/a.srt", [1]), ("/m/name.en.srt", [2])]
          (candName (splitext "/m/name.en.srt").1 (splitext "/m/name.en.srt").2 j) = true) ∧
      fs2.lookup "/m/name.en.srt" =
        ([("/t/a.srt", [1]), ("/m/name.en.srt", [2])] : FS).lookup "/m/name.en.srt" ∧
      fs2.lookup (candName (splitext "/m/name.en.srt").1 (splitext "/m/name.en.srt").2 n) =
        some [1]) :=
  ⟨by decide, by decide,
    claim_C1_amended true [("/t/a.srt", [1]), ("/m/name.en.srt", [2])] "/t/a.srt"
      "/m/name.en.srt" [1] (by decide) (by decide) (by decide)⟩

/-- The concrete double-acquisition scenario for the C1 counterexample: the
same one-member archive is staged and extracted twice against the movie file
`/m/name.mp4` with language suffix `en`. -/
def pzW : Content → Option (List (String × Content)) :=
  fun bytes => if bytes = [1] then some [("sub.srt", [55, 56])] else none

def fs0W : FS := [("/dl/pack.zip", [1]), ("/m/name.mp4", [9])]

def run1W : Bool × String × FS :=
  extract_and_rename pzW true fs0W "/dl/pack.zip" "/m/name.mp4" "en" "/tmp/subs_a" false

def run2W : Bool × String × FS :=
  extract_and_rename pzW true (fsWrite run1W.2.2 "/dl/pack.zip" [1]) "/dl/pack.zip"
    "/m/name.mp4" "en" "/tmp/subs_b" false

/-- **C1 counterexample**: acquiring the same artifact twice with
`overwrite=false` for target `name.en.srt` produces `name.en.srt` and
`name.en (1).srt` — `os.path.splitext` splits at the LAST dot, so the claimed
second file `name (1).en.srt` is never created. -/
theorem claim_C1_counterexample :
    run1W.1 = true ∧ run1W.2.1 = "name.en.srt" ∧
    run2W.1 = true ∧ run2W.2.1 = "name.en (1).srt" ∧
    fsExists run2W.2.2 "/m/name.en.srt" = true ∧
    fsExists run2W.2.2 "/m/name.en (1).srt" = true ∧
    fsExists run2W.2.2 "/m/name (1).en.srt" = false ∧
    run2W.2.1 ≠ "name (1).en.srt" := by
  decide


end YSD
